import Mathlib

/-!
Verification of the prompt-sync core against its implementation.

This file is a shallow embedding, in Lean 4, of the parts of the
kovyrin/prompt-sync repository that the verified properties are about:

* the trust policy (internal/security/trusted_sources.go),
* the two simplified adapters (internal/adapter/cursor/simple.go and
  internal/adapter/claude/simple.go) and the legacy Claude naming helpers
  (internal/adapter/claude/claude_adapter.go),
* the conflict detector's drift scan (internal/conflict/detector.go),
* the update command's pinning logic (internal/cmd/update.go),
* the configuration loader's adapter defaults (internal/config/extended.go),
* the install workflow `Installer.Execute` (internal/workflow).

Go strings are modelled by Lean `String`; the string primitives used by the
code (`strings.Split`, `HasPrefix`, `TrimSuffix`, ...) are re-implemented by
structural recursion over `String.data` so that every definition evaluates
inside the kernel.  The inputs handled by the repository are ASCII, where
Go's byte-oriented operations and the character-list model agree.

External effects (git fetches, the filesystem, the lock store and the
gitignore manager) are modelled by oracle functions in an `Env` structure,
and the workflow records every side effect it issues in an ordered trace of
`Eff` values, so that "no fetch happened" or "the lock was never written"
are provable statements about the trace.
-/

namespace PromptSync

/-! ### Go string primitives (structural re-implementations) -/

/-- Splits a character list at every occurrence of `c` (Go `strings.Split`
with a one-character separator, on the list of characters). -/
def splitCharList (c : Char) : List Char → List (List Char)
  | [] => [[]]
  | x :: xs =>
    let r := splitCharList c xs
    if x = c then [] :: r
    else
      match r with
      | [] => [[x]]
      | y :: ys => (x :: y) :: ys

/-- Go `strings.Split(s, c)` for a one-character separator `c`. -/
def goSplit (s : String) (c : Char) : List String :=
  (splitCharList c s.data).map String.mk

/-- Go `strings.HasPrefix`. -/
def goStartsWith (s pre : String) : Bool :=
  pre.data.isPrefixOf s.data

/-- Go `strings.HasSuffix`. -/
def goEndsWith (s suf : String) : Bool :=
  suf.data.isSuffixOf s.data

/-- Drops the first `n` characters of `s`. -/
def goDrop (s : String) (n : Nat) : String :=
  String.mk (s.data.drop n)

/-- Drops the last `n` characters of `s`. -/
def goDropRight (s : String) (n : Nat) : String :=
  String.mk ((s.data.reverse.drop n).reverse)

/-- Go `strings.TrimPrefix`. -/
def goTrimPre (s pre : String) : String :=
  if goStartsWith s pre then goDrop s pre.length else s

/-- Go `strings.TrimSuffix`. -/
def goTrimSuffix (s suf : String) : String :=
  if goEndsWith s suf then goDropRight s suf.length else s

/-! ### Trust policy — internal/security/trusted_sources.go -/

/-- Embeds `canonical` (trusted_sources.go).  The Go code's
`strings.Replace(u, "github.com/", "github.com:", 1)` is guarded by
`strings.HasPrefix(u, "github.com/")`, so the first occurrence it replaces
is the prefix itself; the embedding replaces the prefix directly
(`"github.com/".length = 11`). -/
def canonical (u : String) : String :=
  if goStartsWith u "file://" then u
  else
    let u1 := goTrimPre u "git@"
    let u2 := goTrimPre u1 "https://"
    let u3 := goTrimPre u2 "ssh://"
    let u4 := if goStartsWith u3 "github.com/" then "github.com:" ++ goDrop u3 11 else u3
    goTrimSuffix u4 ".git"

/-- Embeds `matchRepo` (trusted_sources.go): a pattern ending in `*`
matches by prefix after the `*` is removed, otherwise matching is exact. -/
def matchRepo (repoURL allowed : String) : Bool :=
  if goEndsWith allowed "*" then goStartsWith repoURL (goTrimSuffix allowed "*")
  else repoURL == allowed

/-- Embeds `EnsureTrusted` (trusted_sources.go).  Each configured source is
represented by its `Repo` string, the only field `EnsureTrusted` reads; the
Go loop over `cfg.Sources` that returns on the first match is the `List.any`
below, and a nil config behaves as the empty source list. -/
def EnsureTrusted (repoURL : String) (sources : List String) (allowUnknown : Bool) :
    Except String Unit :=
  if sources.any (fun s => matchRepo (canonical repoURL) (canonical s)) then .ok ()
  else if allowUnknown then .ok ()
  else .error ("untrusted source: " ++ repoURL)

/-- Embeds the hard-coded default source list of `NewTrustedSources`
(trusted_sources.go). -/
def defaultTrustedSources : List String :=
  ["github.com:acme/*", "github.com:tools/*", "github.com:org/*",
   "github.com:project/*", "github.com:personal/*", "github.com:pack1/*",
   "github.com:pack2/*"]

/-- Embeds `TrustedSources.IsTrusted` (trusted_sources.go) at the default
source list: the allowed patterns are compared as stored, and only the
candidate URL is canonicalized. -/
def IsTrusted (repoURL : String) : Bool :=
  defaultTrustedSources.any (fun allowed => matchRepo (canonical repoURL) allowed)

/-- Trust rule in the words of the spec (§4.2), for comparison with the
implementation: the canonical form of the URL either equals the canonical
form of a configured source, or begins with the prefix obtained by removing
the trailing `*` from a pattern ending in `*`. -/
def specTrustMatch (c a : String) : Prop :=
  (goEndsWith a "*" = true ∧ goStartsWith c (goDropRight a 1) = true) ∨
  (goEndsWith a "*" = false ∧ c = a)

/-! ### Path helpers — filepath.Base, filepath.Dir, filepath.Join -/

/-- Embeds Go `filepath.Base`: empty path gives `.`, trailing slashes are
removed, all-slash paths give `/`, otherwise the last path element. -/
def goBase (path : String) : String :=
  if path = "" then "."
  else
    let l := path.data.reverse.dropWhile (fun c => c = '/')
    if l = [] then "/"
    else String.mk ((l.takeWhile (fun c => c ≠ '/')).reverse)

/-- Models Go `filepath.Join a b` for the clean, nonempty, slash-free
components the pipeline produces: plain concatenation with a `/`. -/
def goJoin (a b : String) : String :=
  a ++ "/" ++ b

/-- Models Go `filepath.Dir` on the clean slash-separated paths the
pipeline produces: everything before the last slash, or `.` if none. -/
def goDir (path : String) : String :=
  let r := path.data.reverse
  match r.dropWhile (fun c => c ≠ '/') with
  | [] => "."
  | rest => String.mk ((rest.dropWhile (fun c => c = '/')).reverse)

/-! ### Adapters — internal/adapter/{cursor,claude}/simple.go -/

/-- Embeds `adapter.Config` (internal/adapter, simple interface).  The Go
field `Prefix` is called `pfx` because its name is reserved in Lean. -/
structure AdapterConfig where
  enabled : Bool
  pfx : String
  deriving DecidableEq

/-- Embeds cursor `SimpleAdapter.GetOutputPath`: the basename placed under
`.cursor/rules/_active`. -/
def cursorGetOutputPath (inputPath : String) (_cfg : AdapterConfig) : String :=
  goJoin ".cursor/rules/_active" (goBase inputPath)

/-- Embeds cursor `SimpleAdapter.GetGitignorePatterns`. -/
def cursorGitignorePatterns (_cfg : AdapterConfig) : List String :=
  [".cursor/rules/_active/"]

/-- Embeds cursor `SimpleAdapter.GetBaseOutputDir`. -/
def cursorBaseOutputDir (_cfg : AdapterConfig) : String :=
  ".cursor/rules/_active"

/-- Embeds Claude `SimpleAdapter.GetOutputPath` (simple.go): the basename,
prefixed with `<prefix>-` only when a prefix is configured, under
`.claude/commands`.  No space or underscore replacement happens here. -/
def claudeGetOutputPath (inputPath : String) (cfg : AdapterConfig) : String :=
  let basename := goBase inputPath
  let basename := if cfg.pfx ≠ "" then cfg.pfx ++ "-" ++ basename else basename
  goJoin ".claude/commands" basename

/-- Embeds Claude `SimpleAdapter.GetGitignorePatterns`. -/
def claudeGitignorePatterns (cfg : AdapterConfig) : List String :=
  if cfg.pfx ≠ "" then [".claude/commands/" ++ cfg.pfx ++ "-*"]
  else [".claude/commands/*"]

/-- Embeds Claude `SimpleAdapter.GetBaseOutputDir`. -/
def claudeBaseOutputDir (_cfg : AdapterConfig) : String :=
  ".claude/commands"

/-- Dispatch over the installer's adapter map `{cursor, claude}`
(workflow.New).  Both `RenderFile` implementations are pass-through, so
rendering needs no dispatcher. -/
def GetOutputPath (name inputPath : String) (cfg : AdapterConfig) : String :=
  if name = "cursor" then cursorGetOutputPath inputPath cfg
  else claudeGetOutputPath inputPath cfg

/-- Dispatch for `GetGitignorePatterns` over the installer's adapter map. -/
def GetGitignorePatterns (name : String) (cfg : AdapterConfig) : List String :=
  if name = "cursor" then cursorGitignorePatterns cfg
  else claudeGitignorePatterns cfg

/-- Dispatch for `GetBaseOutputDir` over the installer's adapter map. -/
def GetBaseOutputDir (name : String) (cfg : AdapterConfig) : String :=
  if name = "cursor" then cursorBaseOutputDir cfg
  else claudeBaseOutputDir cfg

/-! ### Legacy Claude naming helpers — internal/adapter/claude/claude_adapter.go

These functions (`GenerateFileName`, `ResolvePrefix`, `ToKebabCase`) belong
to the `AgentAdapter` implementation that the install workflow does not
instantiate; they are embedded to compare their behaviour with the
simplified adapter above.  The Go loops index bytes; on the ASCII names
involved this agrees with the character model used here. -/

/-- Go `r >= 'A' && r <= 'Z'` (isUpper in claude_adapter.go). -/
def isUpperChar (r : Char) : Bool :=
  'A' ≤ r && r ≤ 'Z'

/-- Go `r >= 'a' && r <= 'z'` (isLower in claude_adapter.go). -/
def isLowerChar (r : Char) : Bool :=
  'a' ≤ r && r ≤ 'z'

/-- Characters kept by the `[^a-zA-Z0-9\-]+` replacement in `ToKebabCase`. -/
def isAlnumDash (r : Char) : Bool :=
  isUpperChar r || isLowerChar r || ('0' ≤ r && r ≤ '9') || r = '-'

/-- ASCII lowercasing, as `strings.ToLower` acts on the ASCII names here. -/
def toLowerChar (r : Char) : Char :=
  if isUpperChar r then Char.ofNat (r.toNat + 32) else r

/-- Replaces every maximal run of characters not satisfying `p` by a single
`rep` (a regex `X+ → rep` replacement); the Bool flag records being inside
a replaced run. -/
def collapseRuns (p : Char → Bool) (rep : Char) : List Char → Bool → List Char
  | [], _ => []
  | x :: xs, inRun =>
    if p x then x :: collapseRuns p rep xs false
    else if inRun then collapseRuns p rep xs true
    else rep :: collapseRuns p rep xs true

/-- Go `unicode.IsSpace` on the ASCII whitespace characters. -/
def isSpaceChar (r : Char) : Bool :=
  r = ' ' || r = '\t' || r = '\n' || r = '\x0b' || r = '\x0c' || r = '\r'

/-- Go `strings.TrimSpace` on the character list. -/
def goTrimSpace (l : List Char) : List Char :=
  ((l.dropWhile isSpaceChar).reverse.dropWhile isSpaceChar).reverse

/-- Go `strings.Trim(s, "-")`. -/
def trimDashes (l : List Char) : List Char :=
  ((l.dropWhile (fun c => c = '-')).reverse.dropWhile (fun c => c = '-')).reverse

/-- The camel-case loop of `ToKebabCase`: a dash is inserted before an
uppercase character that is neither first nor last when its predecessor or
successor is lowercase, and every character is lowercased.  The first
argument is the preceding original character, when any. -/
def kebabLoop (prev : Option Char) : List Char → List Char
  | [] => []
  | [x] => [toLowerChar x]
  | x :: y :: rest =>
    let dash :=
      match prev with
      | none => false
      | some p => isUpperChar x && (isLowerChar p || isLowerChar y)
    (if dash then ['-'] else []) ++ (toLowerChar x :: kebabLoop (some x) (y :: rest))

/-- Embeds `ToKebabCase` (claude_adapter.go). -/
def ToKebabCase (s : String) : String :=
  if s = "" then ""
  else
    let l := goTrimSpace s.data
    let l := collapseRuns isAlnumDash '-' l false
    let l := kebabLoop none l
    let l := collapseRuns (fun c => c ≠ '-') '-' l false
    String.mk (trimDashes l)

/-- Embeds `ResolvePrefix` (claude_adapter.go): explicit source prefix, then
config prefix, then the kebab-cased source name. -/
def ResolvePrefix (sourcePfx configPfx sourceName : String) : String :=
  if sourcePfx ≠ "" then sourcePfx
  else if configPfx ≠ "" then configPfx
  else ToKebabCase sourceName

/-- Replaces every occurrence of character `a` by `b` (Go
`strings.ReplaceAll` with one-character arguments). -/
def mapChar (a b : Char) (s : String) : String :=
  String.mk (s.data.map (fun r => if r = a then b else r))

/-- Embeds `GenerateFileName` (claude_adapter.go): the basename with spaces
and underscores replaced by dashes, prefixed with `<prefix>-`. -/
def GenerateFileName (pfx filePath : String) : String :=
  let fileName := goBase filePath
  let fileName := mapChar ' ' '-' fileName
  let fileName := mapChar '_' '-' fileName
  pfx ++ "-" ++ fileName

/-! ### Configuration — internal/config/extended.go -/

/-- Embeds `config.CursorCfg`. -/
structure CursorCfg where
  enabled : Bool
  deriving DecidableEq

/-- Embeds `config.ClaudeCfg`; the Go field `Prefix` is called `pfx`. -/
structure ClaudeCfg where
  enabled : Bool
  pfx : String
  deriving DecidableEq

/-- Embeds `config.AdaptersCfg`. -/
structure AdaptersCfg where
  cursor : CursorCfg
  claude : ClaudeCfg
  deriving DecidableEq

/-- Embeds `config.Overlay`. -/
structure Overlay where
  scope : String
  source : String
  deriving DecidableEq

/-- Embeds `config.ExtendedConfig`. -/
structure ExtendedConfig where
  sources : List String
  overlays : List Overlay
  adapters : AdaptersCfg
  deriving DecidableEq

/-- Embeds the defaults step of `Loader.Load` (extended.go): after YAML
parsing, if neither adapter is enabled — including when the `adapters`
section was absent, which parses to all-false — Cursor is enabled.  The
loaded configuration returned by `Load` is `applyAdapterDefaults` of the
parsed document. -/
def applyAdapterDefaults (cfg : ExtendedConfig) : ExtendedConfig :=
  if !cfg.adapters.cursor.enabled && !cfg.adapters.claude.enabled then
    { cfg with adapters := { cfg.adapters with cursor := { enabled := true } } }
  else cfg

/-- Embeds `Installer.isAdapterEnabled` (workflow). -/
def isAdapterEnabled (cfg : ExtendedConfig) (name : String) : Bool :=
  if name = "cursor" then cfg.adapters.cursor.enabled
  else if name = "claude" then cfg.adapters.claude.enabled
  else false

/-- Embeds `Installer.getAdapterConfig` (workflow). -/
def getAdapterConfig (cfg : ExtendedConfig) (name : String) : AdapterConfig :=
  if name = "cursor" then ⟨cfg.adapters.cursor.enabled, ""⟩
  else if name = "claude" then ⟨cfg.adapters.claude.enabled, cfg.adapters.claude.pfx⟩
  else ⟨false, ""⟩

/-! ### Lock entries and orphan detection -/

namespace Lock

/-- Embeds `lock.File`. -/
structure File where
  path : String
  hash : String
  deriving DecidableEq

/-- Embeds `lock.Source`. -/
structure Source where
  url : String
  ref : String
  commit : String
  files : List File
  deriving DecidableEq

end Lock

/-- Embeds `Installer.findOrphanedFiles` (workflow): old paths absent from
the new file list.  The Go code materialises the new paths as a set before
filtering; membership in that set is the `List.any` below. -/
def findOrphanedFiles (oldFiles newFiles : List Lock.File) : List String :=
  oldFiles.filterMap (fun f =>
    if newFiles.any (fun g => g.path == f.path) then none else some f.path)

/-! ### Drift scan — internal/conflict/detector.go -/

/-- Embeds `conflict.Issue`.  The Go field `Type` — the issue kind string,
such as `duplicate` or `drift` — is called `kind` since `Type` is reserved
in Lean. -/
structure Issue where
  kind : String
  path : String
  details : String
  isCritical : Bool
  deriving DecidableEq

/-- Result of reading a file for hashing: present with contents, absent
(`os.IsNotExist`), or another I/O failure. -/
inductive ReadRes where
  | found (content : String)
  | notExist
  | ioErr (msg : String)
  deriving DecidableEq

/-- Embeds `Detector.CheckDrift` (detector.go).  `hashContent` models
`calculateFileHash` applied to the file contents (the `sha256:<hex>`
string); `fs` models the filesystem.  The Go code iterates a map, so the
expected hashes arrive as an association list whose order is the iteration
order of that map. -/
def CheckDrift (hashContent : String → String) (fs : String → ReadRes) :
    List (String × String) → Except String (List Issue)
  | [] => .ok []
  | (path, expected) :: rest =>
    match fs path with
    | .notExist =>
      match CheckDrift hashContent fs rest with
      | .error e => .error e
      | .ok tail => .ok (⟨"drift", path, "file missing", true⟩ :: tail)
    | .ioErr e => .error ("failed to calculate hash for " ++ path ++ ": " ++ e)
    | .found content =>
      let actual := hashContent content
      if actual ≠ expected then
        match CheckDrift hashContent fs rest with
        | .error e => .error e
        | .ok tail =>
          .ok (⟨"drift", path,
              "hash mismatch: expected " ++ expected ++ ", got " ++ actual, true⟩ :: tail)
      else CheckDrift hashContent fs rest

/-- Issue produced for one expected-hash entry, used to state what
`CheckDrift` reports: a drift issue with details `file missing` for an
absent file, a drift issue with the hash-mismatch details for a changed
file, nothing for a matching file. -/
def driftIssueFor (hashContent : String → String) (fs : String → ReadRes)
    (pe : String × String) : Option Issue :=
  match fs pe.1 with
  | .notExist => some ⟨"drift", pe.1, "file missing", true⟩
  | .ioErr _ => none
  | .found c =>
    if hashContent c ≠ pe.2 then
      some ⟨"drift", pe.1,
          "hash mismatch: expected " ++ pe.2 ++ ", got " ++ hashContent c, true⟩
    else none

/-! ### Update command — internal/cmd/update.go -/

/-- Embeds `isPinnedSource` (update.go): a source is pinned when it carries
a `#<ref>` part whose ref is none of the unpinned branch names. -/
def isPinnedSource (source : String) : Bool :=
  let parts := goSplit source '#'
  if parts.length < 2 then false
  else
    let ref := parts.getD 1 ""
    !(["main", "master", "develop", "dev"].contains ref)

/-- Embeds `matchesSourceURL` (update.go): both sides compared by the part
before the `#`. -/
def matchesSourceURL (source target : String) : Bool :=
  (goSplit source '#').headD "" == (goSplit target '#').headD ""

/-- Embeds the explicit-targets loop of `determineSourcesToUpdate`
(update.go): for each argument, the first configured source with a matching
base URL is selected; a pinned match without `--force` is an error, an
argument without a match is an error. -/
def updateTargets (cfgSources : List String) (force : Bool) :
    List String → Except String (List String)
  | [] => .ok []
  | arg :: rest =>
    match cfgSources.find? (fun s => matchesSourceURL s arg) with
    | none => .error ("source '" ++ arg ++ "' not found in Promptsfile")
    | some s =>
      if !force && isPinnedSource s then
        .error ("source '" ++ s ++ "' is pinned to a specific version. Use --force to update")
      else
        match updateTargets cfgSources force rest with
        | .error e => .error e
        | .ok tail => .ok (s :: tail)

/-- Embeds `determineSourcesToUpdate` (update.go): with no arguments every
source is taken except pinned ones unless `--force`; with arguments the
targets loop runs. -/
def determineSourcesToUpdate (cfgSources : List String) (args : List String) (force : Bool) :
    Except String (List String) :=
  match args with
  | [] => .ok (cfgSources.filter (fun s => force || !(isPinnedSource s)))
  | _ => updateTargets cfgSources force args

/-! ### Install workflow — internal/workflow (Installer.Execute)

The workflow is embedded as a function from a configuration and an
environment of oracles to a result and an ordered trace of issued side
effects.  The oracles stand for the collaborators `Execute` calls into
(git fetcher, filesystem, conflict scanner, lock store, gitignore
manager); universally quantified theorems therefore cover every behaviour
those collaborators can exhibit, including failures.  Go iterates the
`i.adapters` map in unspecified order, so each of the three loops over that
map takes its iteration order from the environment. -/

/-- Side effects issued by the install workflow, in order. -/
inductive Eff where
  | fetch (url ref : String)
  | mkdirAll (dir : String)
  | writeFile (path content : String)
  | removeFile (path : String)
  | warn (msg : String)
  | gitignoreUpdate (patterns : List String)
  | lockWrite (sources : List Lock.Source)
  deriving DecidableEq

/-- Outcome of `lockWriter.CalculateFileHash`: a hash, a missing file
(`os.IsNotExist`), or another failure. -/
inductive HashRes where
  | ok (h : String)
  | notExist (msg : String)
  | err (msg : String)

/-- Outcome of `os.Remove`: removed, already absent, or another failure. -/
inductive RemoveRes where
  | ok
  | notExist
  | err (msg : String)

/-- Embeds `workflow.InstallOptions`.  `Offline` and `CacheDir` only
configure the git fetcher backend, which is behind the fetch oracle. -/
structure InstallOptions where
  workspaceDir : String
  strictMode : Bool
  verifyOnly : Bool
  allowUnknown : Bool

/-- Oracles for every collaborator `Installer.Execute` calls into. -/
structure Env where
  adapterOrder : List String
  scanOrder : List String
  ignoreOrder : List String
  lockExists : Bool
  readLock : Except String (Option (List Lock.Source))
  fetch : String → String → Except String (String × String)
  discover : String → String → Except String (List String)
  readFile : String → Except String String
  mkdirRes : String → Option String
  writeRes : String → Option String
  hashAt : String → HashRes
  statDir : String → Bool
  scanDir : String → Except String (List Issue)
  showIssues : List Issue → String
  lockHashes : Except String (List (String × String))
  fsRead : String → ReadRes
  hashContent : String → String
  ignoreRes : List String → Option String
  lockRes : List Lock.Source → Option String

/-- Go `strings.Split(source, "#")[0]`, used for trust checks and the old
lock index. -/
def baseURL (source : String) : String :=
  (goSplit source '#').headD ""

/-- Embeds the flat-source trust loop of `Execute` (lines 115–121): the
first source whose base URL fails `IsTrusted` aborts when `allow_unknown`
is not set. -/
def checkSourcesTrust (allowUnknown : Bool) : List String → Except String Unit
  | [] => .ok ()
  | source :: rest =>
    let url := baseURL source
    if !IsTrusted url && !allowUnknown then .error ("untrusted source: " ++ url)
    else checkSourcesTrust allowUnknown rest

/-- Embeds the overlay loop of `Execute` (lines 123–131): each overlay
source is trust-checked and appended. -/
def collectOverlaySources (allowUnknown : Bool) : List Overlay → Except String (List String)
  | [] => .ok []
  | o :: rest =>
    let url := baseURL o.source
    if !IsTrusted url && !allowUnknown then .error ("untrusted overlay source: " ++ url)
    else
      match collectOverlaySources allowUnknown rest with
      | .error e => .error e
      | .ok tail => .ok (o.source :: tail)

/-- The source list `Execute` processes: the flat sources followed by the
overlay sources, after both trust loops pass. -/
def combinedSources (allowUnknown : Bool) (cfg : ExtendedConfig) : Except String (List String) :=
  match checkSourcesTrust allowUnknown cfg.sources with
  | .error e => .error e
  | .ok _ =>
    match collectOverlaySources allowUnknown cfg.overlays with
    | .error e => .error e
    | .ok overlaySources => .ok (cfg.sources ++ overlaySources)

/-- Embeds the `oldFilesBySource` map construction of `Execute` (lines
106–113); later sources with the same base URL overwrite earlier ones, so
the index conses at the front and lookups take the first hit. -/
def oldFilesIndex (sources : List Lock.Source) : List (String × List Lock.File) :=
  sources.foldl (fun acc s => (baseURL s.url, s.files) :: acc) []

/-- The hash step at the end of the per-file body of `Execute` (lines
205–219): in verify mode a missing output file records the `missing`
sentinel, otherwise hash failures abort. -/
def processFileHash (env : Env) (opts : InstallOptions) (outputPath fullOutputPath : String)
    (rendered : List (String × String)) (lockFiles : List Lock.File) (tr : List Eff) :
    Except String (List (String × String) × List Lock.File) × List Eff :=
  match env.hashAt fullOutputPath with
  | .ok h => (.ok (rendered, lockFiles ++ [⟨outputPath, h⟩]), tr)
  | .notExist msg =>
    if opts.verifyOnly then (.ok (rendered, lockFiles ++ [⟨outputPath, "missing"⟩]), tr)
    else (.error ("failed to calculate hash for " ++ fullOutputPath ++ ": " ++ msg), tr)
  | .err msg => (.error ("failed to calculate hash for " ++ fullOutputPath ++ ": " ++ msg), tr)

/-- The render-and-write block of the per-file body of `Execute` (lines
180–203): skipped in verify mode; otherwise the source file is read,
rendered (both shipped adapters render by passing the bytes through), the
output directory is created and the file written. -/
def processFileWrite (env : Env) (opts : InstallOptions) (repoPath : String)
    (file outputPath fullOutputPath : String)
    (rendered : List (String × String)) (lockFiles : List Lock.File) :
    Except String (List (String × String) × List Lock.File) × List Eff :=
  if opts.verifyOnly then
    processFileHash env opts outputPath fullOutputPath rendered lockFiles []
  else
    match env.readFile (goJoin repoPath file) with
    | .error e => (.error ("failed to read " ++ file ++ ": " ++ e), [])
    | .ok content =>
      let renderedBytes := content
      let outputDir := goDir fullOutputPath
      match env.mkdirRes outputDir with
      | some e =>
        (.error ("failed to create directory " ++ outputDir ++ ": " ++ e), [.mkdirAll outputDir])
      | none =>
        match env.writeRes fullOutputPath with
        | some e =>
          (.error ("failed to write " ++ fullOutputPath ++ ": " ++ e),
            [.mkdirAll outputDir, .writeFile fullOutputPath renderedBytes])
        | none =>
          processFileHash env opts outputPath fullOutputPath rendered lockFiles
            [.mkdirAll outputDir, .writeFile fullOutputPath renderedBytes]

/-- The per-file body of `Execute` (lines 168–220): output path, conflict
check against the plan so far — an error outside verify mode — then the
write and hash steps. -/
def processFile (env : Env) (opts : InstallOptions) (url repoPath nm : String)
    (acfg : AdapterConfig) (file : String)
    (rendered : List (String × String)) (lockFiles : List Lock.File) :
    Except String (List (String × String) × List Lock.File) × List Eff :=
  let outputPath := GetOutputPath nm file acfg
  let fullOutputPath := goJoin opts.workspaceDir outputPath
  match rendered.find? (fun q => q.1 == outputPath) with
  | some q =>
    if !opts.verifyOnly then
      (.error ("conflict: " ++ outputPath ++ " would be rendered by both " ++ q.2 ++ " and " ++ url),
        [])
    else
      processFileWrite env opts repoPath file outputPath fullOutputPath
        ((outputPath, url) :: rendered) lockFiles
  | none =>
    processFileWrite env opts repoPath file outputPath fullOutputPath
      ((outputPath, url) :: rendered) lockFiles

/-- The files loop of `Execute` for one adapter. -/
def processFiles (env : Env) (opts : InstallOptions) (url repoPath nm : String)
    (acfg : AdapterConfig) :
    List String → List (String × String) → List Lock.File →
      Except String (List (String × String) × List Lock.File) × List Eff
  | [], rendered, lockFiles => (.ok (rendered, lockFiles), [])
  | f :: rest, rendered, lockFiles =>
    match processFile env opts url repoPath nm acfg f rendered lockFiles with
    | (.error e, tr) => (.error e, tr)
    | (.ok (r2, lf2), tr) =>
      match processFiles env opts url repoPath nm acfg rest r2 lf2 with
      | (res, tr2) => (res, tr ++ tr2)

/-- The adapters loop of `Execute` (lines 154–221): disabled adapters are
skipped, otherwise files are discovered and processed. -/
def processAdapters (env : Env) (opts : InstallOptions) (cfg : ExtendedConfig)
    (url repoPath : String) :
    List String → List (String × String) → List Lock.File →
      Except String (List (String × String) × List Lock.File) × List Eff
  | [], rendered, lockFiles => (.ok (rendered, lockFiles), [])
  | nm :: rest, rendered, lockFiles =>
    if isAdapterEnabled cfg nm then
      match env.discover nm repoPath with
      | .error e => (.error ("failed to discover files for " ++ nm ++ ": " ++ e), [])
      | .ok files =>
        match processFiles env opts url repoPath nm (getAdapterConfig cfg nm)
            files rendered lockFiles with
        | (.error e, tr) => (.error e, tr)
        | (.ok (r2, lf2), tr) =>
          match processAdapters env opts cfg url repoPath rest r2 lf2 with
          | (res, tr2) => (res, tr ++ tr2)
    else processAdapters env opts cfg url repoPath rest rendered lockFiles

/-- The orphan-cleanup block of `Execute` (lines 223–233): one remove per
orphaned path; a failure that is not `os.IsNotExist` only produces a
warning.  `rm` is the oracle for the outcome of each `os.Remove`. -/
def cleanupSource (rm : String → RemoveRes) (ws : String)
    (oldFiles newFiles : List Lock.File) : List Eff :=
  (findOrphanedFiles oldFiles newFiles).foldr (fun orphan acc =>
    let fullPath := goJoin ws orphan
    Eff.removeFile fullPath ::
      (match rm fullPath with
       | .ok => acc
       | .notExist => acc
       | .err msg =>
         Eff.warn ("Warning: could not remove orphaned file " ++ orphan ++ ": " ++ msg) :: acc)) []

/-- The per-source body of `Execute` (lines 137–241) after the ref split:
fetch, run the adapters loop, clean up orphans outside verify mode, and
append the lock source record. -/
def processSourceAux (env : Env) (rm : String → RemoveRes) (opts : InstallOptions)
    (cfg : ExtendedConfig) (oldIdx : List (String × List Lock.File)) (url ref : String)
    (rendered : List (String × String)) (lockSources : List Lock.Source) :
    Except String (List (String × String) × List Lock.Source) × List Eff :=
  match env.fetch url ref with
  | .error e => (.error ("failed to fetch " ++ url ++ ": " ++ e), [.fetch url ref])
  | .ok (repoPath, commit) =>
    match processAdapters env opts cfg url repoPath env.adapterOrder rendered [] with
    | (.error e, tr) => (.error e, Eff.fetch url ref :: tr)
    | (.ok (rendered2, lockFiles), tr) =>
      let cleanupTr :=
        if !opts.verifyOnly then
          match oldIdx.find? (fun q => q.1 == url) with
          | some q => cleanupSource rm opts.workspaceDir q.2 lockFiles
          | none => []
        else []
      (.ok (rendered2, lockSources ++ [⟨url, ref, commit, lockFiles⟩]),
        Eff.fetch url ref :: (tr ++ cleanupTr))

/-- The per-source body of `Execute` (lines 137–241): the source string is
split at `#` into URL and ref as in the Go code. -/
def processSource (env : Env) (rm : String → RemoveRes) (opts : InstallOptions)
    (cfg : ExtendedConfig) (oldIdx : List (String × List Lock.File)) (source : String)
    (rendered : List (String × String)) (lockSources : List Lock.Source) :
    Except String (List (String × String) × List Lock.Source) × List Eff :=
  let parts := goSplit source '#'
  processSourceAux env rm opts cfg oldIdx (parts.headD "")
    (if parts.length > 1 then parts.getD 1 "" else "") rendered lockSources

/-- The sources loop of `Execute`. -/
def processSources (env : Env) (rm : String → RemoveRes) (opts : InstallOptions)
    (cfg : ExtendedConfig) (oldIdx : List (String × List Lock.File)) :
    List String → List (String × String) → List Lock.Source →
      Except String (List Lock.Source) × List Eff
  | [], _, lockSources => (.ok lockSources, [])
  | s :: rest, rendered, lockSources =>
    match processSource env rm opts cfg oldIdx s rendered lockSources with
    | (.error e, tr) => (.error e, tr)
    | (.ok (r2, ls2), tr) =>
      match processSources env rm opts cfg oldIdx rest r2 ls2 with
      | (res, tr2) => (res, tr ++ tr2)

/-- The post-write conflict scan of `Execute` (lines 243–263): each enabled
adapter's base output directory is scanned when it exists; issues abort
only in strict mode. -/
def scanAdapters (env : Env) (opts : InstallOptions) (cfg : ExtendedConfig) :
    List String → Except String Unit
  | [] => .ok ()
  | nm :: rest =>
    if isAdapterEnabled cfg nm then
      let fullOutputDir := goJoin opts.workspaceDir (GetBaseOutputDir nm (getAdapterConfig cfg nm))
      if env.statDir fullOutputDir then
        match env.scanDir fullOutputDir with
        | .error e => .error ("failed to scan for conflicts: " ++ e)
        | .ok issues =>
          if !issues.isEmpty && opts.strictMode then
            .error ("conflicts detected: " ++ env.showIssues issues)
          else scanAdapters env opts cfg rest
      else scanAdapters env opts cfg rest
    else scanAdapters env opts cfg rest

/-- The gitignore-patterns loop of `Execute` (lines 284–294). -/
def collectIgnorePatterns (cfg : ExtendedConfig) : List String → List String
  | [] => []
  | nm :: rest =>
    if isAdapterEnabled cfg nm then
      GetGitignorePatterns nm (getAdapterConfig cfg nm) ++ collectIgnorePatterns cfg rest
    else collectIgnorePatterns cfg rest

/-- Embeds `Installer.Execute`.  The loaded configuration arrives as `cfg`
(`Loader.Load` is `applyAdapterDefaults` over the parsed Promptsfile); the
result is the returned error or success together with the ordered trace of
issued side effects.  `rm` is the oracle for `os.Remove` outcomes during
orphan cleanup. -/
def Execute (env : Env) (rm : String → RemoveRes) (opts : InstallOptions)
    (cfg : ExtendedConfig) : Except String Unit × List Eff :=
  if opts.verifyOnly && !env.lockExists then
    (.error "lock file not found, run install first", [])
  else
    match env.readLock with
    | .error e => (.error ("failed to read lock file: " ++ e), [])
    | .ok oldLock =>
      let oldIdx := oldFilesIndex (oldLock.getD [])
      match combinedSources opts.allowUnknown cfg with
      | .error e => (.error e, [])
      | .ok allSources =>
        match processSources env rm opts cfg oldIdx allSources [] [] with
        | (.error e, tr) => (.error e, tr)
        | (.ok lockSources, tr) =>
          match scanAdapters env opts cfg env.scanOrder with
          | .error e => (.error e, tr)
          | .ok _ =>
            if opts.verifyOnly then
              match env.lockHashes with
              | .error e => (.error ("failed to read lock file: " ++ e), tr)
              | .ok expected =>
                match CheckDrift env.hashContent env.fsRead expected with
                | .error e => (.error ("failed to check drift: " ++ e), tr)
                | .ok issues =>
                  if !issues.isEmpty then
                    (.error ("drift detected: " ++ env.showIssues issues), tr)
                  else (.ok (), tr)
            else
              let patterns := collectIgnorePatterns cfg env.ignoreOrder
              match env.ignoreRes patterns with
              | some e =>
                (.error ("failed to update .gitignore: " ++ e), tr ++ [.gitignoreUpdate patterns])
              | none =>
                match env.lockRes lockSources with
                | some e =>
                  (.error ("failed to write lock file: " ++ e),
                    tr ++ [.gitignoreUpdate patterns, .lockWrite lockSources])
                | none => (.ok (), tr ++ [.gitignoreUpdate patterns, .lockWrite lockSources])

/-! ### Trace observations -/

/-- True exactly for fetch effects. -/
def Eff.isFetchEff : Eff → Bool
  | .fetch _ _ => true
  | _ => false

/-- True exactly for the lock-write effect. -/
def Eff.isLockWrite : Eff → Bool
  | .lockWrite _ => true
  | _ => false

/-- True exactly for remove effects. -/
def Eff.isRemoveEff : Eff → Bool
  | .removeFile _ => true
  | _ => false

/-- Paths of the remove effects in a trace, in order. -/
def removesOf (tr : List Eff) : List String :=
  tr.filterMap (fun e =>
    match e with
    | .removeFile p => some p
    | _ => none)

/-- Messages of the warning effects in a trace, in order. -/
def warnsOf (tr : List Eff) : List String :=
  tr.filterMap (fun e =>
    match e with
    | .warn m => some m
    | _ => none)

/-- True exactly for error results. -/
def isError {α : Type} : Except String α → Bool
  | .error _ => true
  | .ok _ => false

/-! ### Concrete instances used by witnesses and counterexamples -/

/-- An environment in which every oracle succeeds trivially: fetches yield
an empty repository, no files are discovered, the filesystem scan finds
nothing. -/
def envC : Env where
  adapterOrder := ["cursor", "claude"]
  scanOrder := ["cursor", "claude"]
  ignoreOrder := ["cursor", "claude"]
  lockExists := true
  readLock := .ok none
  fetch := fun _ _ => .ok ("/repo", "c0")
  discover := fun _ _ => .ok []
  readFile := fun _ => .error "unused"
  mkdirRes := fun _ => none
  writeRes := fun _ => none
  hashAt := fun _ => .ok "h"
  statDir := fun _ => false
  scanDir := fun _ => .ok []
  showIssues := fun _ => ""
  lockHashes := .ok []
  fsRead := fun _ => .notExist
  hashContent := fun s => s
  ignoreRes := fun _ => none
  lockRes := fun _ => none

/-- Remove oracle where every removal succeeds. -/
def rmOk : String → RemoveRes := fun _ => RemoveRes.ok

/-- Remove oracle where every removal fails with an I/O error. -/
def rmErr : String → RemoveRes := fun _ => RemoveRes.err "device busy"

/-- Install options for a plain install run in workspace `ws`. -/
def optsC : InstallOptions where
  workspaceDir := "ws"
  strictMode := false
  verifyOnly := false
  allowUnknown := false

/-- Install options for a verify-only run in workspace `ws`. -/
def optsV : InstallOptions :=
  { optsC with verifyOnly := true }

/-- A configuration whose single flat source also appears as an overlay
source; the URL matches the default trusted pattern `github.com:acme/*`. -/
def cfgC : ExtendedConfig where
  sources := ["github.com/acme/tools"]
  overlays := [⟨"org", "github.com/acme/tools"⟩]
  adapters := ⟨⟨true⟩, ⟨false, ""⟩⟩

/-- A configuration listing a source outside every default trusted
pattern. -/
def cfgBad : ExtendedConfig where
  sources := ["evil.com/x"]
  overlays := []
  adapters := ⟨⟨true⟩, ⟨false, ""⟩⟩

/-- A configuration whose parsed Promptsfile enables no adapter. -/
def cfgBadNoAdapters : ExtendedConfig where
  sources := []
  overlays := []
  adapters := ⟨⟨false⟩, ⟨false, ""⟩⟩

/-- Environment whose prior lock records the source under the spelling
`https://github.com/acme/tools` — canonically equal to, but a different
string from, the configured `github.com/acme/tools` — with one recorded
output file. -/
def envC4 : Env :=
  { envC with
    readLock := .ok (some [⟨"https://github.com/acme/tools", "v1", "c1",
      [⟨".cursor/rules/_active/stale.md", "sha256:h"⟩]⟩]) }

/-- Configuration listing the same repository as `envC4`'s lock, spelled
without the `https://` transport, at a new ref. -/
def cfgC4 : ExtendedConfig where
  sources := ["github.com/acme/tools#v2"]
  overlays := []
  adapters := ⟨⟨true⟩, ⟨false, ""⟩⟩

/-- Old lock files for the orphan-cleanup witness. -/
def oldFilesW : List Lock.File :=
  [⟨".cursor/rules/_active/a.md", "sha256:h1"⟩, ⟨".cursor/rules/_active/b.md", "sha256:h2"⟩]

/-- New plan files for the orphan-cleanup witness: `a.md` survives with a
new hash, `b.md` is gone. -/
def newFilesW : List Lock.File :=
  [⟨".cursor/rules/_active/a.md", "sha256:h1x"⟩]

/-- Configured sources for the update-command witness: one pinned, one
tracking `main`. -/
def cfgSourcesW : List String :=
  ["github.com/a#v1.0.0", "github.com/b#main"]

/-- The drift-check tail of `Execute` in verify mode, as a function of the
expected hashes and the trace so far. -/
def driftTail (env : Env) (expected : List (String × String)) (tr : List Eff) :
    Except String Unit × List Eff :=
  match CheckDrift env.hashContent env.fsRead expected with
  | .error e => (.error ("failed to check drift: " ++ e), tr)
  | .ok issues =>
    if !issues.isEmpty then
      (.error ("drift detected: " ++ env.showIssues issues), tr)
    else (.ok (), tr)

/-- The verify-mode tail of `Execute` after the conflict scan. -/
def verifyTail (env : Env) (tr : List Eff) : Except String Unit × List Eff :=
  match env.lockHashes with
  | .error e => (.error ("failed to read lock file: " ++ e), tr)
  | .ok expected => driftTail env expected tr

/-- The install-mode tail of `Execute` after the conflict scan: gitignore
update and lock write. -/
def installTail (env : Env) (cfg : ExtendedConfig) (lockSources : List Lock.Source)
    (tr : List Eff) : Except String Unit × List Eff :=
  let patterns := collectIgnorePatterns cfg env.ignoreOrder
  match env.ignoreRes patterns with
  | some e =>
    (.error ("failed to update .gitignore: " ++ e), tr ++ [.gitignoreUpdate patterns])
  | none =>
    match env.lockRes lockSources with
    | some e =>
      (.error ("failed to write lock file: " ++ e),
        tr ++ [.gitignoreUpdate patterns, .lockWrite lockSources])
    | none => (.ok (), tr ++ [.gitignoreUpdate patterns, .lockWrite lockSources])

/-- The tail of `Execute` after the sources loop succeeded, as a function
of the accumulated lock sources and trace; definitionally equal to the
corresponding branch of `Execute` and used to reason about it. -/
def execTail (env : Env) (opts : InstallOptions) (cfg : ExtendedConfig)
    (lockSources : List Lock.Source) (tr : List Eff) : Except String Unit × List Eff :=
  match scanAdapters env opts cfg env.scanOrder with
  | .error e => (.error e, tr)
  | .ok _ =>
    if opts.verifyOnly then verifyTail env tr
    else installTail env cfg lockSources tr

/-! ## Theorems -/

theorem processFileHash_snd (env : Env) (opts : InstallOptions)
    (op fop : String) (r : List (String × String)) (lf : List Lock.File) (tr : List Eff) :
    (processFileHash env opts op fop r lf tr).2 = tr := by
  unfold processFileHash
  split
  · rfl
  · split <;> rfl
  · rfl

theorem processFile_verify_snd (env : Env) (opts : InstallOptions)
    (url rp nm : String) (acfg : AdapterConfig) (f : String)
    (r : List (String × String)) (lf : List Lock.File) (h : opts.verifyOnly = true) :
    (processFile env opts url rp nm acfg f r lf).2 = [] := by
  unfold processFile processFileWrite
  cases hf : r.find? (fun q => q.1 == GetOutputPath nm f acfg) <;>
    simp [hf, h, processFileHash_snd]

theorem processFiles_verify_snd (env : Env) (opts : InstallOptions)
    (url rp nm : String) (acfg : AdapterConfig) (h : opts.verifyOnly = true) :
    ∀ (files : List String) (r : List (String × String)) (lf : List Lock.File),
      (processFiles env opts url rp nm acfg files r lf).2 = [] := by
  intro files
  induction files with
  | nil => intro r lf; rfl
  | cons f rest ih =>
    intro r lf
    unfold processFiles
    cases hpf : processFile env opts url rp nm acfg f r lf with
    | mk res tr =>
      have htr : tr = [] := by
        have hx := processFile_verify_snd env opts url rp nm acfg f r lf h
        rw [hpf] at hx
        exact hx
      cases res with
      | error e => simp [hpf, htr]
      | ok v =>
        cases v with
        | mk r2 lf2 => simp [hpf, htr, ih]

theorem processAdapters_verify_snd (env : Env) (opts : InstallOptions) (cfg : ExtendedConfig)
    (url rp : String) (h : opts.verifyOnly = true) :
    ∀ (names : List String) (r : List (String × String)) (lf : List Lock.File),
      (processAdapters env opts cfg url rp names r lf).2 = [] := by
  intro names
  induction names with
  | nil => intro r lf; rfl
  | cons nm rest ih =>
    intro r lf
    unfold processAdapters
    cases hen : isAdapterEnabled cfg nm with
    | false => simp [hen, ih]
    | true =>
      simp only [hen, if_true]
      cases hd : env.discover nm rp with
      | error e => simp [hd]
      | ok files =>
        cases hpf : processFiles env opts url rp nm (getAdapterConfig cfg nm) files r lf with
        | mk res tr =>
          have htr : tr = [] := by
            have hx := processFiles_verify_snd env opts url rp nm (getAdapterConfig cfg nm) h
              files r lf
            rw [hpf] at hx
            exact hx
          cases res with
          | error e => simp [hpf, htr]
          | ok v =>
            cases v with
            | mk r2 lf2 => simp [hpf, htr, ih]

theorem processSourceAux_verify_snd (env : Env) (rm : String → RemoveRes)
    (opts : InstallOptions) (cfg : ExtendedConfig)
    (oldIdx : List (String × List Lock.File)) (url ref : String)
    (r : List (String × String)) (ls : List Lock.Source) (h : opts.verifyOnly = true) :
    (processSourceAux env rm opts cfg oldIdx url ref r ls).2 = [Eff.fetch url ref] := by
  unfold processSourceAux
  cases hfe : env.fetch url ref with
  | error e => rfl
  | ok pr =>
    cases pr with
    | mk rp c =>
      cases hpa : processAdapters env opts cfg url rp env.adapterOrder r [] with
      | mk res tr =>
        have htr : tr = [] := by
          have hx := processAdapters_verify_snd env opts cfg url rp h env.adapterOrder r []
          rw [hpa] at hx
          exact hx
        cases res with
        | error e => simp [hpa, htr]
        | ok v =>
          cases v with
          | mk r2 lf => simp [hpa, htr, h]

theorem processSources_verify_all_fetch (env : Env) (rm : String → RemoveRes)
    (opts : InstallOptions) (cfg : ExtendedConfig)
    (oldIdx : List (String × List Lock.File)) (h : opts.verifyOnly = true) :
    ∀ (srcs : List String) (r : List (String × String)) (ls : List Lock.Source),
      ((processSources env rm opts cfg oldIdx srcs r ls).2.all Eff.isFetchEff) = true := by
  intro srcs
  induction srcs with
  | nil => intro r ls; rfl
  | cons s rest ih =>
    intro r ls
    unfold processSources processSource
    cases hps : processSourceAux env rm opts cfg oldIdx ((goSplit s '#').headD "")
        (if (goSplit s '#').length > 1 then (goSplit s '#').getD 1 "" else "") r ls with
    | mk res tr =>
      have htr : tr = [Eff.fetch ((goSplit s '#').headD "")
          (if (goSplit s '#').length > 1 then (goSplit s '#').getD 1 "" else "")] := by
        have hx := processSourceAux_verify_snd env rm opts cfg oldIdx
          ((goSplit s '#').headD "")
          (if (goSplit s '#').length > 1 then (goSplit s '#').getD 1 "" else "") r ls h
        rw [hps] at hx
        exact hx
      cases res with
      | error e => simp [hps, htr, Eff.isFetchEff]
      | ok v =>
        cases v with
        | mk r2 ls2 => simp [hps, htr, Eff.isFetchEff, ih]

/-- C10. In verify-only mode `Execute` mutates nothing: every effect in its
trace is a Fetcher call — it writes no rendered file, creates no directory,
removes no orphan, and neither the managed ignore block nor the lock
document is written, whatever the environment does. -/
theorem verify_only_emits_no_mutation (env : Env) (rm : String → RemoveRes)
    (opts : InstallOptions) (cfg : ExtendedConfig) (h : opts.verifyOnly = true) :
    ((Execute env rm opts cfg).2.all Eff.isFetchEff) = true := by
  unfold Execute
  rw [h]
  cases hle : env.lockExists with
  | false => rfl
  | true =>
    simp only [Bool.not_true, Bool.and_false, Bool.true_and]
    cases hrl : env.readLock with
    | error e => rfl
    | ok ol =>
      cases hcs : combinedSources opts.allowUnknown cfg with
      | error e => rfl
      | ok allS =>
        cases hps : processSources env rm opts cfg (oldFilesIndex (ol.getD [])) allS [] [] with
        | mk res tr =>
          have htr : (tr.all Eff.isFetchEff) = true := by
            have hx := processSources_verify_all_fetch env rm opts cfg
              (oldFilesIndex (ol.getD [])) h allS [] []
            rw [hps] at hx
            exact hx
          cases res with
          | error e => simpa [hps] using htr
          | ok lockSources =>
            cases hsc : scanAdapters env opts cfg env.scanOrder with
            | error e => simpa [hps, hsc] using htr
            | ok u =>
              cases hlh : env.lockHashes with
              | error e => simpa [hps, hsc, hlh, h] using htr
              | ok expected =>
                cases hcd : CheckDrift env.hashContent env.fsRead expected with
                | error e => simpa [hps, hsc, hlh, hcd, h] using htr
                | ok issues =>
                  simp only [hps, hsc, hlh, hcd, h]
                  by_cases hi : issues = [] <;> simpa [hi] using htr

/-- Witness for C10 at a concrete verify-only run. -/
theorem verify_only_emits_no_mutation_witness :
    ((Execute envC rmOk optsV cfgC).2.all Eff.isFetchEff) = true :=
  verify_only_emits_no_mutation envC rmOk optsV cfgC rfl

theorem checkSourcesTrust_ok_all (l : List String)
    (h : checkSourcesTrust false l = .ok ()) :
    ∀ s ∈ l, IsTrusted (baseURL s) = true := by
  induction l with
  | nil => simp
  | cons s rest ih =>
    unfold checkSourcesTrust at h
    dsimp only at h
    cases hts : IsTrusted (baseURL s) with
    | false =>
      rw [hts] at h
      simp at h
    | true =>
      rw [hts] at h
      simp at h
      intro x hx
      cases hx with
      | head => exact hts
      | tail b hx => exact ih h _ hx

theorem collectOverlaySources_ok_all (l : List Overlay) (os : List String)
    (h : collectOverlaySources false l = .ok os) :
    ∀ o ∈ l, IsTrusted (baseURL o.source) = true := by
  induction l generalizing os with
  | nil => simp
  | cons o rest ih =>
    unfold collectOverlaySources at h
    dsimp only at h
    cases hts : IsTrusted (baseURL o.source) with
    | false =>
      rw [hts] at h
      simp at h
    | true =>
      rw [hts] at h
      simp at h
      intro x hx
      cases hx with
      | head => exact hts
      | tail b hx =>
        cases hco : collectOverlaySources false rest with
        | error e => rw [hco] at h; simp at h
        | ok tail => exact ih tail hco _ hx

/-- C1. With `allow_unknown` false, a configuration containing any flat or
overlay source whose base URL fails the trust check makes `Execute` return
an error while its effect trace is empty: no Fetcher call is issued for any
source and nothing is installed. -/
theorem trust_gate_blocks_all_fetches (env : Env) (rm : String → RemoveRes)
    (opts : InstallOptions) (cfg : ExtendedConfig)
    (hallow : opts.allowUnknown = false)
    (hbad : (∃ s ∈ cfg.sources, IsTrusted (baseURL s) = false) ∨
            (∃ o ∈ cfg.overlays, IsTrusted (baseURL o.source) = false)) :
    isError (Execute env rm opts cfg).1 = true ∧ (Execute env rm opts cfg).2 = [] := by
  unfold Execute
  by_cases hvo : (opts.verifyOnly && !env.lockExists) = true
  · rw [if_pos hvo]
    exact ⟨rfl, rfl⟩
  · rw [if_neg hvo]
    cases hrl : env.readLock with
    | error e => exact ⟨rfl, rfl⟩
    | ok ol =>
      cases hcs : combinedSources opts.allowUnknown cfg with
      | error e => exact ⟨rfl, rfl⟩
      | ok allS =>
        exfalso
        rw [hallow] at hcs
        unfold combinedSources at hcs
        cases hck : checkSourcesTrust false cfg.sources with
        | error e => rw [hck] at hcs; simp at hcs
        | ok u =>
          cases u
          rw [hck] at hcs
          cases hco : collectOverlaySources false cfg.overlays with
          | error e => rw [hco] at hcs; simp at hcs
          | ok os =>
            rcases hbad with ⟨s, hs, hbad⟩ | ⟨o, ho, hbad⟩
            · have := checkSourcesTrust_ok_all cfg.sources hck s hs
              rw [this] at hbad
              exact Bool.noConfusion hbad
            · have := collectOverlaySources_ok_all cfg.overlays os hco o ho
              rw [this] at hbad
              exact Bool.noConfusion hbad

/-- Witness for C1: the configuration listing `evil.com/x`, which matches
no default trusted pattern, makes `Execute` fail with an empty trace. -/
theorem trust_gate_blocks_all_fetches_witness :
    isError (Execute envC rmOk optsC cfgBad).1 = true ∧ (Execute envC rmOk optsC cfgBad).2 = [] :=
  trust_gate_blocks_all_fetches envC rmOk optsC cfgBad rfl
    (Or.inl ⟨"evil.com/x", by decide, by decide⟩)

theorem processFile_no_lockWrite (env : Env) (opts : InstallOptions)
    (url rp nm : String) (acfg : AdapterConfig) (f : String)
    (r : List (String × String)) (lf : List Lock.File) :
    ((processFile env opts url rp nm acfg f r lf).2.all (fun e => !(Eff.isLockWrite e))) = true := by
  unfold processFile processFileWrite
  cases hf : r.find? (fun q => q.1 == GetOutputPath nm f acfg) <;>
    simp only [hf] <;>
    (repeat' split) <;>
    simp [processFileHash_snd, Eff.isLockWrite]

theorem processFiles_no_lockWrite (env : Env) (opts : InstallOptions)
    (url rp nm : String) (acfg : AdapterConfig) :
    ∀ (files : List String) (r : List (String × String)) (lf : List Lock.File),
      ((processFiles env opts url rp nm acfg files r lf).2.all (fun e => !(Eff.isLockWrite e))) = true := by
  intro files
  induction files with
  | nil => intro r lf; rfl
  | cons f rest ih =>
    intro r lf
    unfold processFiles
    cases hpf : processFile env opts url rp nm acfg f r lf with
    | mk res tr =>
      have htr : (tr.all (fun e => !(Eff.isLockWrite e))) = true := by
        have hx := processFile_no_lockWrite env opts url rp nm acfg f r lf
        rw [hpf] at hx
        exact hx
      cases res with
      | error e => simpa [hpf] using htr
      | ok v =>
        cases v with
        | mk r2 lf2 => simp [hpf, List.all_append, htr, ih]

theorem processAdapters_no_lockWrite (env : Env) (opts : InstallOptions) (cfg : ExtendedConfig)
    (url rp : String) :
    ∀ (names : List String) (r : List (String × String)) (lf : List Lock.File),
      ((processAdapters env opts cfg url rp names r lf).2.all (fun e => !(Eff.isLockWrite e))) = true := by
  intro names
  induction names with
  | nil => intro r lf; rfl
  | cons nm rest ih =>
    intro r lf
    unfold processAdapters
    cases hen : isAdapterEnabled cfg nm with
    | false => simp [hen, ih]
    | true =>
      simp only [hen, if_true]
      cases hd : env.discover nm rp with
      | error e => simp [hd]
      | ok files =>
        cases hpf : processFiles env opts url rp nm (getAdapterConfig cfg nm) files r lf with
        | mk res tr =>
          have htr : (tr.all (fun e => !(Eff.isLockWrite e))) = true := by
            have hx := processFiles_no_lockWrite env opts url rp nm (getAdapterConfig cfg nm)
              files r lf
            rw [hpf] at hx
            exact hx
          cases res with
          | error e => simpa [hpf] using htr
          | ok v =>
            cases v with
            | mk r2 lf2 => simp [hpf, List.all_append, htr, ih]

theorem cleanupSource_no_lockWrite (rm : String → RemoveRes) (ws : String)
    (old new : List Lock.File) :
    ((cleanupSource rm ws old new).all (fun e => !(Eff.isLockWrite e))) = true := by
  unfold cleanupSource
  generalize findOrphanedFiles old new = l
  induction l with
  | nil => rfl
  | cons o os ih =>
    simp only [List.foldr]
    cases rm (goJoin ws o) <;> simp [Eff.isLockWrite] <;> simpa using ih

theorem processSourceAux_no_lockWrite (env : Env) (rm : String → RemoveRes)
    (opts : InstallOptions) (cfg : ExtendedConfig)
    (oldIdx : List (String × List Lock.File)) (url ref : String)
    (r : List (String × String)) (ls : List Lock.Source) :
    ((processSourceAux env rm opts cfg oldIdx url ref r ls).2.all (fun e => !(Eff.isLockWrite e))) = true := by
  unfold processSourceAux
  cases hfe : env.fetch url ref with
  | error e => simp [Eff.isLockWrite]
  | ok pr =>
    cases pr with
    | mk rp c =>
      cases hpa : processAdapters env opts cfg url rp env.adapterOrder r [] with
      | mk res tr =>
        have htr : (tr.all (fun e => !(Eff.isLockWrite e))) = true := by
          have hx := processAdapters_no_lockWrite env opts cfg url rp env.adapterOrder r []
          rw [hpa] at hx
          exact hx
        cases res with
        | error e => simpa [hpa, Eff.isLockWrite] using htr
        | ok v =>
          cases v with
          | mk r2 lf =>
            simp only [hpa]
            split
            · cases hfind : oldIdx.find? (fun q => q.1 == url) with
              | none =>
                simp only [hfind, List.all_cons, List.all_append, htr]
                simp [Eff.isLockWrite]
              | some q =>
                simp only [hfind, List.all_cons, List.all_append, htr,
                  cleanupSource_no_lockWrite]
                simp [Eff.isLockWrite]
            · simp only [List.all_cons, List.all_append, htr]
              simp [Eff.isLockWrite]

theorem processSources_no_lockWrite (env : Env) (rm : String → RemoveRes)
    (opts : InstallOptions) (cfg : ExtendedConfig)
    (oldIdx : List (String × List Lock.File)) :
    ∀ (srcs : List String) (r : List (String × String)) (ls : List Lock.Source),
      ((processSources env rm opts cfg oldIdx srcs r ls).2.all (fun e => !(Eff.isLockWrite e))) = true := by
  intro srcs
  induction srcs with
  | nil => intro r ls; rfl
  | cons s rest ih =>
    intro r ls
    unfold processSources processSource
    cases hps : processSourceAux env rm opts cfg oldIdx ((goSplit s '#').headD "")
        (if (goSplit s '#').length > 1 then (goSplit s '#').getD 1 "" else "") r ls with
    | mk res tr =>
      have htr : (tr.all (fun e => !(Eff.isLockWrite e))) = true := by
        have hx := processSourceAux_no_lockWrite env rm opts cfg oldIdx
          ((goSplit s '#').headD "")
          (if (goSplit s '#').length > 1 then (goSplit s '#').getD 1 "" else "") r ls
        rw [hps] at hx
        exact hx
      cases res with
      | error e => simpa [hps] using htr
      | ok v =>
        cases v with
        | mk r2 ls2 => simp [hps, List.all_append, htr, ih]

theorem findOrphanedFiles_mem_iff (old new : List Lock.File) (p : String) :
    p ∈ findOrphanedFiles old new ↔
      (∃ f ∈ old, f.path = p) ∧ (∀ g ∈ new, g.path ≠ p) := by
  unfold findOrphanedFiles
  rw [List.mem_filterMap]
  constructor
  · rintro ⟨f, hf, heq⟩
    cases hany : new.any (fun g => g.path == f.path) with
    | true => rw [hany] at heq; simp at heq
    | false =>
      rw [hany] at heq
      simp at heq
      subst heq
      refine ⟨⟨f, hf, rfl⟩, ?_⟩
      intro g hg hgp
      have hany2 : new.any (fun g => g.path == f.path) = true :=
        List.any_eq_true.mpr ⟨g, hg, by simp [hgp]⟩
      rw [hany2] at hany
      exact Bool.noConfusion hany
  · rintro ⟨⟨f, hf, hfp⟩, hall⟩
    refine ⟨f, hf, ?_⟩
    cases hany : new.any (fun g => g.path == f.path) with
    | true =>
      rcases List.any_eq_true.mp hany with ⟨g, hg, hgp⟩
      simp at hgp
      exact absurd (hgp.trans hfp) (hall g hg)
    | false => simp [hfp]

theorem removesOf_cons_remove (x : String) (t : List Eff) :
    removesOf (Eff.removeFile x :: t) = x :: removesOf t := rfl

theorem removesOf_cons_warn (m : String) (t : List Eff) :
    removesOf (Eff.warn m :: t) = removesOf t := rfl

theorem warnsOf_cons_remove (x : String) (t : List Eff) :
    warnsOf (Eff.removeFile x :: t) = warnsOf t := rfl

theorem warnsOf_cons_warn (m : String) (t : List Eff) :
    warnsOf (Eff.warn m :: t) = m :: warnsOf t := rfl

theorem cleanupSource_removes (rm : String → RemoveRes) (ws : String)
    (old new : List Lock.File) :
    removesOf (cleanupSource rm ws old new) =
      (findOrphanedFiles old new).map (fun o => goJoin ws o) := by
  unfold cleanupSource
  generalize findOrphanedFiles old new = l
  induction l with
  | nil => rfl
  | cons o os ih =>
    simp only [List.foldr, List.map]
    cases rm (goJoin ws o) with
    | ok => rw [removesOf_cons_remove, ih]
    | notExist => rw [removesOf_cons_remove, ih]
    | err m => rw [removesOf_cons_remove, removesOf_cons_warn, ih]

theorem cleanupSource_warns (rm : String → RemoveRes) (ws : String)
    (old new : List Lock.File) :
    warnsOf (cleanupSource rm ws old new) =
      (findOrphanedFiles old new).filterMap (fun o =>
        match rm (goJoin ws o) with
        | .err m => some ("Warning: could not remove orphaned file " ++ o ++ ": " ++ m)
        | _ => none) := by
  unfold cleanupSource
  generalize findOrphanedFiles old new = l
  induction l with
  | nil => rfl
  | cons o os ih =>
    simp only [List.foldr, List.filterMap_cons]
    cases rm (goJoin ws o) with
    | ok => rw [warnsOf_cons_remove, ih]
    | notExist => rw [warnsOf_cons_remove, ih]
    | err m => rw [warnsOf_cons_remove, warnsOf_cons_warn, ih]

theorem goJoin_right_inj (ws a b : String) (h : goJoin ws a = goJoin ws b) : a = b := by
  unfold goJoin at h
  have hd := congrArg String.data h
  have hx : ∀ s t : String, (s ++ t).data = s.data ++ t.data := fun _ _ => rfl
  rw [hx, hx] at hd
  exact String.ext (List.append_cancel_left hd)

theorem processSourceAux_fst_rm (env : Env) (rm rm' : String → RemoveRes)
    (opts : InstallOptions) (cfg : ExtendedConfig)
    (oldIdx : List (String × List Lock.File)) (url ref : String)
    (r : List (String × String)) (ls : List Lock.Source) :
    (processSourceAux env rm opts cfg oldIdx url ref r ls).1 =
      (processSourceAux env rm' opts cfg oldIdx url ref r ls).1 := by
  unfold processSourceAux
  cases hfe : env.fetch url ref with
  | error e => rfl
  | ok pr =>
    cases pr with
    | mk rp c =>
      cases hpa : processAdapters env opts cfg url rp env.adapterOrder r [] with
      | mk res tr =>
        simp only [hpa]
        cases res with
        | error e => rfl
        | ok v =>
          cases v with
          | mk r2 lf => rfl

theorem processSources_fst_rm (env : Env) (rm rm' : String → RemoveRes)
    (opts : InstallOptions) (cfg : ExtendedConfig)
    (oldIdx : List (String × List Lock.File)) :
    ∀ (srcs : List String) (r : List (String × String)) (ls : List Lock.Source),
      (processSources env rm opts cfg oldIdx srcs r ls).1 =
        (processSources env rm' opts cfg oldIdx srcs r ls).1 := by
  intro srcs
  induction srcs with
  | nil => intro r ls; rfl
  | cons s rest ih =>
    intro r ls
    unfold processSources processSource
    have hfst := processSourceAux_fst_rm env rm rm' opts cfg oldIdx
      ((goSplit s '#').headD "")
      (if (goSplit s '#').length > 1 then (goSplit s '#').getD 1 "" else "") r ls
    cases hA : processSourceAux env rm opts cfg oldIdx ((goSplit s '#').headD "")
        (if (goSplit s '#').length > 1 then (goSplit s '#').getD 1 "" else "") r ls with
    | mk resA trA =>
      cases hB : processSourceAux env rm' opts cfg oldIdx ((goSplit s '#').headD "")
          (if (goSplit s '#').length > 1 then (goSplit s '#').getD 1 "" else "") r ls with
      | mk resB trB =>
        rw [hA, hB] at hfst
        simp at hfst
        simp only [hA, hB]
        cases resA with
        | error e =>
          cases resB with
          | error eB => simpa using hfst
          | ok vB => simp at hfst
        | ok vA =>
          cases resB with
          | error eB => simp at hfst
          | ok vB =>
            cases vA with
            | mk rA lsA =>
              cases vB with
              | mk rB lsB =>
                simp at hfst
                rcases hfst with ⟨h1, h2⟩
                rw [h1, h2]
                simp [ih]

theorem driftTail_fst_tr (env : Env) (expected : List (String × String))
    (trA trB : List Eff) :
    (driftTail env expected trA).1 = (driftTail env expected trB).1 := by
  unfold driftTail
  cases hcd : CheckDrift env.hashContent env.fsRead expected with
  | error e => rfl
  | ok issues =>
    by_cases hi : (!issues.isEmpty) = true
    · simp only [if_pos hi]
    · simp only [if_neg hi]

theorem verifyTail_fst_tr (env : Env) (trA trB : List Eff) :
    (verifyTail env trA).1 = (verifyTail env trB).1 := by
  unfold verifyTail
  cases hlh : env.lockHashes with
  | error e => rfl
  | ok expected => exact driftTail_fst_tr env expected trA trB

theorem installTail_fst_tr (env : Env) (cfg : ExtendedConfig)
    (ls : List Lock.Source) (trA trB : List Eff) :
    (installTail env cfg ls trA).1 = (installTail env cfg ls trB).1 := by
  unfold installTail
  dsimp only
  cases hig : env.ignoreRes (collectIgnorePatterns cfg env.ignoreOrder) with
  | some e => rfl
  | none =>
    cases hlw : env.lockRes ls with
    | some e => rfl
    | none => rfl

theorem execTail_fst_tr (env : Env) (opts : InstallOptions) (cfg : ExtendedConfig)
    (ls : List Lock.Source) (trA trB : List Eff) :
    (execTail env opts cfg ls trA).1 = (execTail env opts cfg ls trB).1 := by
  unfold execTail
  cases hsc : scanAdapters env opts cfg env.scanOrder with
  | error e => rfl
  | ok u =>
    by_cases hvo2 : opts.verifyOnly = true
    · simp only [if_pos hvo2]
      exact verifyTail_fst_tr env trA trB
    · simp only [if_neg hvo2]
      exact installTail_fst_tr env cfg ls trA trB

theorem execute_fst_rm (env : Env) (rm rm' : String → RemoveRes)
    (opts : InstallOptions) (cfg : ExtendedConfig) :
    (Execute env rm opts cfg).1 = (Execute env rm' opts cfg).1 := by
  unfold Execute
  by_cases hvo : (opts.verifyOnly && !env.lockExists) = true
  · simp only [if_pos hvo]
  · simp only [if_neg hvo]
    cases hrl : env.readLock with
    | error e => rfl
    | ok ol =>
      cases hcs : combinedSources opts.allowUnknown cfg with
      | error e => rfl
      | ok allS =>
        dsimp only
        have hfst := processSources_fst_rm env rm rm' opts cfg
          (oldFilesIndex (ol.getD [])) allS [] []
        cases hA : processSources env rm opts cfg (oldFilesIndex (ol.getD [])) allS [] [] with
        | mk resA trA =>
          cases hB : processSources env rm' opts cfg (oldFilesIndex (ol.getD [])) allS [] [] with
          | mk resB trB =>
            rw [hA, hB] at hfst
            have hres : resA = resB := hfst
            cases resA with
            | error e =>
              cases resB with
              | error eB =>
                have he : e = eB := Except.error.inj hres
                exact congrArg (fun x => ((Except.error x : Except String Unit), ([] : List Eff)).1) he
              | ok vB => exact absurd hres (by simp)
            | ok lsA =>
              cases resB with
              | error eB => exact absurd hres (by simp)
              | ok lsB =>
                have hls : lsA = lsB := Except.ok.inj hres
                subst hls
                exact execTail_fst_tr env opts cfg lsA trA trB

theorem removesOf_append (a b : List Eff) :
    removesOf (a ++ b) = removesOf a ++ removesOf b := by
  unfold removesOf
  exact List.filterMap_append a b _

theorem removesOf_cons_fetch (u rf : String) (t : List Eff) :
    removesOf (Eff.fetch u rf :: t) = removesOf t := rfl

theorem removesOf_eq_nil (t : List Eff)
    (h : (t.all (fun e => !(Eff.isRemoveEff e))) = true) : removesOf t = [] := by
  induction t with
  | nil => rfl
  | cons e rest ih =>
    simp only [List.all_cons, Bool.and_eq_true] at h
    obtain ⟨h1, h2⟩ := h
    cases e with
    | removeFile p => simp [Eff.isRemoveEff] at h1
    | fetch u rf => rw [removesOf_cons_fetch]; exact ih h2
    | mkdirAll d => rw [show removesOf (Eff.mkdirAll d :: rest) = removesOf rest from rfl]; exact ih h2
    | writeFile p c => rw [show removesOf (Eff.writeFile p c :: rest) = removesOf rest from rfl]; exact ih h2
    | warn m => rw [show removesOf (Eff.warn m :: rest) = removesOf rest from rfl]; exact ih h2
    | gitignoreUpdate ps => rw [show removesOf (Eff.gitignoreUpdate ps :: rest) = removesOf rest from rfl]; exact ih h2
    | lockWrite ls => rw [show removesOf (Eff.lockWrite ls :: rest) = removesOf rest from rfl]; exact ih h2

theorem processFile_no_remove (env : Env) (opts : InstallOptions)
    (url rp nm : String) (acfg : AdapterConfig) (f : String)
    (r : List (String × String)) (lf : List Lock.File) :
    ((processFile env opts url rp nm acfg f r lf).2.all (fun e => !(Eff.isRemoveEff e))) = true := by
  unfold processFile processFileWrite
  cases hf : r.find? (fun q => q.1 == GetOutputPath nm f acfg) <;>
    simp only [hf] <;>
    (repeat' split) <;>
    simp [processFileHash_snd, Eff.isRemoveEff]

theorem processFiles_no_remove (env : Env) (opts : InstallOptions)
    (url rp nm : String) (acfg : AdapterConfig) :
    ∀ (files : List String) (r : List (String × String)) (lf : List Lock.File),
      ((processFiles env opts url rp nm acfg files r lf).2.all (fun e => !(Eff.isRemoveEff e))) = true := by
  intro files
  induction files with
  | nil => intro r lf; rfl
  | cons f rest ih =>
    intro r lf
    unfold processFiles
    cases hpf : processFile env opts url rp nm acfg f r lf with
    | mk res tr =>
      have htr : (tr.all (fun e => !(Eff.isRemoveEff e))) = true := by
        have hx := processFile_no_remove env opts url rp nm acfg f r lf
        rw [hpf] at hx
        exact hx
      cases res with
      | error e => simpa [hpf] using htr
      | ok v =>
        cases v with
        | mk r2 lf2 => simp [hpf, List.all_append, htr, ih]

theorem processAdapters_no_remove (env : Env) (opts : InstallOptions) (cfg : ExtendedConfig)
    (url rp : String) :
    ∀ (names : List String) (r : List (String × String)) (lf : List Lock.File),
      ((processAdapters env opts cfg url rp names r lf).2.all (fun e => !(Eff.isRemoveEff e))) = true := by
  intro names
  induction names with
  | nil => intro r lf; rfl
  | cons nm rest ih =>
    intro r lf
    unfold processAdapters
    cases hen : isAdapterEnabled cfg nm with
    | false => simp [hen, ih]
    | true =>
      simp only [hen, if_true]
      cases hd : env.discover nm rp with
      | error e => simp [hd]
      | ok files =>
        cases hpf : processFiles env opts url rp nm (getAdapterConfig cfg nm) files r lf with
        | mk res tr =>
          have htr : (tr.all (fun e => !(Eff.isRemoveEff e))) = true := by
            have hx := processFiles_no_remove env opts url rp nm (getAdapterConfig cfg nm)
              files r lf
            rw [hpf] at hx
            exact hx
          cases res with
          | error e => simpa [hpf] using htr
          | ok v =>
            cases v with
            | mk r2 lf2 => simp [hpf, List.all_append, htr, ih]

theorem processSourceAux_removes (env : Env) (rm : String → RemoveRes)
    (opts : InstallOptions) (cfg : ExtendedConfig)
    (oldIdx : List (String × List Lock.File)) (url ref : String)
    (r : List (String × String)) (ls : List Lock.Source)
    (repoPath commit : String) (tr : List Eff)
    (r2 : List (String × String)) (lockFiles : List Lock.File)
    (hvo : opts.verifyOnly = false)
    (hfe : env.fetch url ref = .ok (repoPath, commit))
    (hpa : processAdapters env opts cfg url repoPath env.adapterOrder r [] =
      (.ok (r2, lockFiles), tr)) :
    removesOf (processSourceAux env rm opts cfg oldIdx url ref r ls).2 =
      (match oldIdx.find? (fun q => q.1 == url) with
       | none => []
       | some q => removesOf (cleanupSource rm opts.workspaceDir q.2 lockFiles)) := by
  have htr : removesOf tr = [] := by
    refine removesOf_eq_nil tr ?_
    have hx := processAdapters_no_remove env opts cfg url repoPath env.adapterOrder r []
    rw [hpa] at hx
    exact hx
  unfold processSourceAux
  rw [hfe]
  dsimp only
  rw [hpa]
  dsimp only
  simp only [hvo, Bool.not_false, if_true]
  cases hfind : oldIdx.find? (fun q => q.1 == url) with
  | none => simp [removesOf_cons_fetch, removesOf_append, htr]
  | some q => simp [removesOf_cons_fetch, removesOf_append, htr]

/-- C4 counterexample. The pipeline pairs old lock entries to new sources
by exact base-URL string equality, not by canonical URL: with the prior
lock recording the source as `https://github.com/acme/tools` and the
configuration spelling it `github.com/acme/tools#v2` — the two canonicalize
identically — the stale recorded file is absent from the new plan, yet the
install run succeeds while issuing no remove effect at all, so the claimed
deletion does not happen. -/
theorem orphan_cleanup_misses_canonically_equal_url :
    canonical "https://github.com/acme/tools" = canonical "github.com/acme/tools"
    ∧ ("https://github.com/acme/tools" : String) ≠ "github.com/acme/tools"
    ∧ (∃ src ∈ (envC4.readLock.toOption.getD none).getD [],
        canonical (baseURL src.url) = canonical (baseURL "github.com/acme/tools#v2") ∧
        ⟨".cursor/rules/_active/stale.md", "sha256:h"⟩ ∈ src.files)
    ∧ (Execute envC4 rmOk optsC cfgC4).1 = .ok ()
    ∧ removesOf (Execute envC4 rmOk optsC cfgC4).2 = [] :=
  ⟨rfl, by decide, ⟨⟨"https://github.com/acme/tools", "v1", "c1",
      [⟨".cursor/rules/_active/stale.md", "sha256:h"⟩]⟩, by decide, by decide, by decide⟩,
    rfl, rfl⟩

/-- C4 amended. Old lock entries are paired with new sources by exact
base-URL string equality (the part of each URL before `#`), not by
canonical URL: the per-source step, in install mode, issues no remove
effect when no old entry has the identical base URL, and otherwise removes
exactly the paths of that entry's files that are absent from the source's
new file list.  For a matched entry: membership in `findOrphanedFiles` is
equivalent to being an old path missing from the new list, the remove
effects are exactly the orphans joined under the workspace, a path present
in the new plan is never removed, removal failures surface only as
warnings with the Go warning text, and the result of `Execute` is
independent of every removal outcome, so deletion errors never fail the
run. -/
theorem orphan_cleanup_by_exact_base_url (env : Env)
    (rm rm' : String → RemoveRes) (opts : InstallOptions) (cfg : ExtendedConfig)
    (oldIdx : List (String × List Lock.File)) (url ref : String)
    (r : List (String × String)) (ls : List Lock.Source)
    (ws p : String) (old new : List Lock.File) :
    (p ∈ findOrphanedFiles old new ↔
      (∃ f ∈ old, f.path = p) ∧ (∀ g ∈ new, g.path ≠ p))
    ∧ removesOf (cleanupSource rm ws old new) =
        (findOrphanedFiles old new).map (fun o => goJoin ws o)
    ∧ ((∃ g ∈ new, g.path = p) → goJoin ws p ∉ removesOf (cleanupSource rm ws old new))
    ∧ warnsOf (cleanupSource rm ws old new) =
        (findOrphanedFiles old new).filterMap (fun o =>
          match rm (goJoin ws o) with
          | .err m => some ("Warning: could not remove orphaned file " ++ o ++ ": " ++ m)
          | _ => none)
    ∧ (opts.verifyOnly = false →
        ∀ (repoPath commit : String) (tr : List Eff)
          (r2 : List (String × String)) (lockFiles : List Lock.File),
          env.fetch url ref = .ok (repoPath, commit) →
          processAdapters env opts cfg url repoPath env.adapterOrder r [] =
            (.ok (r2, lockFiles), tr) →
          ((oldIdx.find? (fun q => q.1 == url) = none →
              removesOf (processSourceAux env rm opts cfg oldIdx url ref r ls).2 = [])
           ∧ ∀ q, oldIdx.find? (fun q2 => q2.1 == url) = some q →
              removesOf (processSourceAux env rm opts cfg oldIdx url ref r ls).2 =
                (findOrphanedFiles q.2 lockFiles).map (fun o => goJoin opts.workspaceDir o)))
    ∧ (Execute env rm opts cfg).1 = (Execute env rm' opts cfg).1 := by
  refine ⟨findOrphanedFiles_mem_iff old new p, cleanupSource_removes rm ws old new,
    ?_, cleanupSource_warns rm ws old new, ?_, execute_fst_rm env rm rm' opts cfg⟩
  · rintro ⟨g, hg, hgp⟩ hin
    rw [cleanupSource_removes] at hin
    rcases List.mem_map.mp hin with ⟨o, ho, hoeq⟩
    have hop : o = p := goJoin_right_inj ws o p hoeq
    subst hop
    have := ((findOrphanedFiles_mem_iff old new o).mp ho).2 g hg
    exact this hgp
  · intro hvo repoPath commit tr r2 lockFiles hfe hpa
    have hrem := processSourceAux_removes env rm opts cfg oldIdx url ref r ls
      repoPath commit tr r2 lockFiles hvo hfe hpa
    constructor
    · intro hfind
      rw [hrem, hfind]
    · intro q hfind
      rw [hrem, hfind]
      exact cleanupSource_removes rm opts.workspaceDir q.2 lockFiles

/-- Witness for the amended C4: against the lock entry recorded for
`github.com/acme/tools` with files `a.md`, `b.md` and a new plan keeping
only `a.md`, the per-source step removes exactly `ws/...b.md`, spares the
surviving file, warns on a failing removal, and a lookup under a different
spelling finds nothing and removes nothing. -/
theorem orphan_cleanup_by_exact_base_url_witness :
    ((".cursor/rules/_active/b.md" ∈ findOrphanedFiles oldFilesW newFilesW ↔
      (∃ f ∈ oldFilesW, f.path = ".cursor/rules/_active/b.md") ∧
        (∀ g ∈ newFilesW, g.path ≠ ".cursor/rules/_active/b.md"))
    ∧ removesOf (cleanupSource rmErr "ws" oldFilesW newFilesW) =
        (findOrphanedFiles oldFilesW newFilesW).map (fun o => goJoin "ws" o)
    ∧ ((∃ g ∈ newFilesW, g.path = ".cursor/rules/_active/b.md") →
        goJoin "ws" ".cursor/rules/_active/b.md" ∉
          removesOf (cleanupSource rmErr "ws" oldFilesW newFilesW))
    ∧ warnsOf (cleanupSource rmErr "ws" oldFilesW newFilesW) =
        (findOrphanedFiles oldFilesW newFilesW).filterMap (fun o =>
          match rmErr (goJoin "ws" o) with
          | .err m => some ("Warning: could not remove orphaned file " ++ o ++ ": " ++ m)
          | _ => none)
    ∧ (optsC.verifyOnly = false →
        ∀ (repoPath commit : String) (tr : List Eff)
          (r2 : List (String × String)) (lockFiles : List Lock.File),
          envC.fetch "github.com/acme/tools" "v2" = .ok (repoPath, commit) →
          processAdapters envC optsC cfgC "github.com/acme/tools" repoPath
            envC.adapterOrder [] [] = (.ok (r2, lockFiles), tr) →
          (([("github.com/acme/tools", oldFilesW)].find?
              (fun q => q.1 == "github.com/acme/tools") = none →
              removesOf (processSourceAux envC rmErr optsC cfgC
                [("github.com/acme/tools", oldFilesW)]
                "github.com/acme/tools" "v2" [] []).2 = [])
           ∧ ∀ q, [("github.com/acme/tools", oldFilesW)].find?
              (fun q2 => q2.1 == "github.com/acme/tools") = some q →
              removesOf (processSourceAux envC rmErr optsC cfgC
                [("github.com/acme/tools", oldFilesW)]
                "github.com/acme/tools" "v2" [] []).2 =
                (findOrphanedFiles q.2 lockFiles).map
                  (fun o => goJoin optsC.workspaceDir o)))
    ∧ (Execute envC rmErr optsC cfgC).1 = (Execute envC rmOk optsC cfgC).1) :=
  orphan_cleanup_by_exact_base_url envC rmErr rmOk optsC cfgC
    [("github.com/acme/tools", oldFilesW)] "github.com/acme/tools" "v2" [] []
    "ws" ".cursor/rules/_active/b.md" oldFilesW newFilesW

theorem execute_lockWrite_mem (env : Env) (rm : String → RemoveRes)
    (opts : InstallOptions) (cfg : ExtendedConfig) (ls : List Lock.Source)
    (hmem : Eff.lockWrite ls ∈ (Execute env rm opts cfg).2) :
    (Execute env rm opts cfg).1 = .ok () ∨
      ∃ e, (Execute env rm opts cfg).1 = .error ("failed to write lock file: " ++ e) := by
  unfold Execute at hmem ⊢
  by_cases hvo : (opts.verifyOnly && !env.lockExists) = true
  · rw [if_pos hvo] at hmem
    simp at hmem
  · rw [if_neg hvo] at hmem ⊢
    cases hrl : env.readLock with
    | error e => rw [hrl] at hmem; simp at hmem
    | ok ol =>
      rw [hrl] at hmem
      dsimp only at hmem
      cases hcs : combinedSources opts.allowUnknown cfg with
      | error e => rw [hcs] at hmem; simp at hmem
      | ok allS =>
        rw [hcs] at hmem
        dsimp only at hmem
        dsimp only
        cases hps : processSources env rm opts cfg (oldFilesIndex (ol.getD [])) allS [] [] with
        | mk res tr =>
          rw [hps] at hmem
          have hall : (tr.all (fun e => !(Eff.isLockWrite e))) = true := by
            have hx := processSources_no_lockWrite env rm opts cfg
              (oldFilesIndex (ol.getD [])) allS [] []
            rw [hps] at hx
            exact hx
          have hnotin : Eff.lockWrite ls ∉ tr := by
            intro hin
            have hc := List.all_eq_true.mp hall _ hin
            simp [Eff.isLockWrite] at hc
          cases res with
          | error e =>
            simp at hmem
            exact absurd hmem hnotin
          | ok lockS =>
            cases hsc : scanAdapters env opts cfg env.scanOrder with
            | error e =>
              rw [hsc] at hmem
              simp at hmem
              exact absurd hmem hnotin
            | ok u =>
              rw [hsc] at hmem
              dsimp only at hmem
              by_cases hvo2 : opts.verifyOnly = true
              · rw [if_pos hvo2] at hmem
                cases hlh : env.lockHashes with
                | error e =>
                  rw [hlh] at hmem
                  simp at hmem
                  exact absurd hmem hnotin
                | ok expected =>
                  rw [hlh] at hmem
                  dsimp only at hmem
                  cases hcd : CheckDrift env.hashContent env.fsRead expected with
                  | error e =>
                    rw [hcd] at hmem
                    simp at hmem
                    exact absurd hmem hnotin
                  | ok issues =>
                    rw [hcd] at hmem
                    dsimp only at hmem
                    split at hmem <;> exact absurd hmem hnotin
              · rw [if_neg hvo2] at hmem
                cases hig : env.ignoreRes (collectIgnorePatterns cfg env.ignoreOrder) with
                | some e =>
                  rw [hig] at hmem
                  simp at hmem
                  exact absurd hmem hnotin
                | none =>
                  rw [hig] at hmem
                  cases hlw : env.lockRes lockS with
                  | some e => exact Or.inr ⟨e, by simp [hvo2, hig, hlw]⟩
                  | none => exact Or.inl (by simp [hvo2, hig, hlw])

theorem failedlock_not_conflict (e : String) :
    goStartsWith ("failed to write lock file: " ++ e) "conflict:" = false := by
  unfold goStartsWith
  have h2 : ("failed to write lock file: " ++ e).data =
      'f' :: ("ailed to write lock file: " ++ e).data := rfl
  have h1 : ("conflict:" : String).data = 'c' :: "onflict:".data := rfl
  rw [h2, h1]
  simp [List.isPrefixOf]

/-- C3. In install mode (verify-only false) a plan entry whose output path
is already claimed makes the per-file step return the conflict error naming
both source URLs, and any run of `Execute` that ends in a `conflict:` error
never issued the lock-write effect, so the prior on-disk lock document is
unchanged. -/
theorem plan_conflict_error_aborts_without_lock_write (env : Env) (rm : String → RemoveRes)
    (opts : InstallOptions) (cfg : ExtendedConfig)
    (url rp nm : String) (acfg : AdapterConfig) (f : String)
    (r : List (String × String)) (lf : List Lock.File) (q : String × String)
    (hvo : opts.verifyOnly = false)
    (hfind : r.find? (fun p => p.1 == GetOutputPath nm f acfg) = some q) :
    (processFile env opts url rp nm acfg f r lf).1 =
      .error ("conflict: " ++ GetOutputPath nm f acfg ++
        " would be rendered by both " ++ q.2 ++ " and " ++ url)
    ∧ (∀ m, (Execute env rm opts cfg).1 = .error m → goStartsWith m "conflict:" = true →
        ∀ lsw, Eff.lockWrite lsw ∉ (Execute env rm opts cfg).2) := by
  constructor
  · unfold processFile
    simp [hfind, hvo]
  · intro m hm hpre lsw hin
    rcases execute_lockWrite_mem env rm opts cfg lsw hin with hok | ⟨e, he⟩
    · rw [hok] at hm
      exact Except.noConfusion hm
    · rw [he] at hm
      have hme : m = "failed to write lock file: " ++ e := by
        have := Except.error.inj hm
        exact this.symm
      rw [hme] at hpre
      rw [failedlock_not_conflict] at hpre
      exact Bool.noConfusion hpre

/-- Witness for C3: with the output path `.cursor/rules/_active/a.md`
already claimed by source `u1`, processing `prompts/a.md` from source `u2`
yields the conflict error naming both URLs, and a conflict error never
coexists with a lock write. -/
theorem plan_conflict_error_aborts_without_lock_write_witness :
    (processFile envC optsC "u2" "/repo" "cursor" ⟨true, ""⟩ "prompts/a.md"
        [(".cursor/rules/_active/a.md", "u1")] []).1 =
      .error ("conflict: " ++ GetOutputPath "cursor" "prompts/a.md" ⟨true, ""⟩ ++
        " would be rendered by both " ++ "u1" ++ " and " ++ "u2")
    ∧ (∀ m, (Execute envC rmOk optsC cfgC).1 = .error m → goStartsWith m "conflict:" = true →
        ∀ lsw, Eff.lockWrite lsw ∉ (Execute envC rmOk optsC cfgC).2) :=
  plan_conflict_error_aborts_without_lock_write envC rmOk optsC cfgC
    "u2" "/repo" "cursor" ⟨true, ""⟩ "prompts/a.md"
    [(".cursor/rules/_active/a.md", "u1")] [] (".cursor/rules/_active/a.md", "u1")
    rfl (by decide)

theorem matchRepo_iff_specTrustMatch (c a : String) :
    matchRepo c a = true ↔ specTrustMatch c a := by
  unfold matchRepo specTrustMatch goTrimSuffix
  cases h : goEndsWith a "*" with
  | false => simp [h, beq_iff_eq]
  | true =>
    have hlen : ("*" : String).length = 1 := rfl
    simp [h, hlen]

theorem any_matchRepo_iff (url : String) (srcs : List String) :
    (srcs.any (fun s => matchRepo (canonical url) (canonical s)) = true) ↔
      (∃ s ∈ srcs, specTrustMatch (canonical url) (canonical s)) := by
  rw [List.any_eq_true]
  constructor
  · rintro ⟨s, hs, hm⟩
    exact ⟨s, hs, (matchRepo_iff_specTrustMatch _ _).mp hm⟩
  · rintro ⟨s, hs, hm⟩
    exact ⟨s, hs, (matchRepo_iff_specTrustMatch _ _).mpr hm⟩

/-- C2. `EnsureTrusted` accepts a repository URL exactly when the URL is
trusted by the spec's rule — its canonical form equals the canonical form of
some configured source, or begins with the prefix obtained by removing the
trailing `*` from an allow-listed pattern ending in `*` — or `allow_unknown`
is set; and when the URL is not trusted and `allow_unknown` is false, it
fails with the untrusted-source error. -/
theorem EnsureTrusted_accepts_iff_trusted (url : String) (srcs : List String) (allow : Bool) :
    (EnsureTrusted url srcs allow = .ok () ↔
      (∃ s ∈ srcs, specTrustMatch (canonical url) (canonical s)) ∨ allow = true)
    ∧ ((¬ ∃ s ∈ srcs, specTrustMatch (canonical url) (canonical s)) →
        EnsureTrusted url srcs false = .error ("untrusted source: " ++ url)) := by
  constructor
  · unfold EnsureTrusted
    by_cases h : srcs.any (fun s => matchRepo (canonical url) (canonical s)) = true
    · simp [h, (any_matchRepo_iff url srcs).mp h]
    · have hne := (not_iff_not.mpr (any_matchRepo_iff url srcs)).mp h
      cases allow with
      | true => simp [Bool.not_eq_true] at h; simp [h]
      | false =>
        simp [Bool.not_eq_true] at h
        simp [hne]
        exact h
  · intro hne
    have h : srcs.any (fun s => matchRepo (canonical url) (canonical s)) = false := by
      rw [← Bool.not_eq_true]
      exact fun hc => hne ((any_matchRepo_iff url srcs).mp hc)
    unfold EnsureTrusted
    simp [h]

/-- Witness for C2 at a concrete input: `github.com/acme/extra` is accepted
against the wildcard pattern `github.com/acme/*`, and `evil.com/x` is
rejected when `allow_unknown` is false. -/
theorem EnsureTrusted_accepts_iff_trusted_witness :
    (EnsureTrusted "github.com/acme/extra" ["github.com/acme/*"] false = .ok () ↔
      (∃ s ∈ ["github.com/acme/*"],
        specTrustMatch (canonical "github.com/acme/extra") (canonical s)) ∨ False) ∧
    EnsureTrusted "evil.com/x" ["github.com/acme/*"] false =
      .error ("untrusted source: " ++ "evil.com/x") := by
  constructor
  · have h := (EnsureTrusted_accepts_iff_trusted "github.com/acme/extra"
      ["github.com/acme/*"] false).1
    simpa using h
  · exact (EnsureTrusted_accepts_iff_trusted "evil.com/x" ["github.com/acme/*"] false).2
      (by unfold specTrustMatch; decide)

theorem collectOverlaySources_ok_map (allow : Bool) :
    ∀ (l : List Overlay) (os : List String),
      collectOverlaySources allow l = .ok os → os = l.map (fun o => o.source) := by
  intro l
  induction l with
  | nil =>
    intro os h
    simp [collectOverlaySources] at h
    simp [h.symm]
  | cons o rest ih =>
    intro os h
    unfold collectOverlaySources at h
    dsimp only at h
    by_cases hts : (!IsTrusted (baseURL o.source) && !allow) = true
    · rw [if_pos hts] at h
      exact absurd h (by simp)
    · rw [if_neg hts] at h
      cases hco : collectOverlaySources allow rest with
      | error e => rw [hco] at h; exact absurd h (by simp)
      | ok tail =>
        rw [hco] at h
        simp at h
        rw [h.symm, List.map_cons]
        rw [ih tail hco]

/-- C5 counterexample. The pipeline does not deduplicate: a spec listed
both as a flat source and as an overlay source appears twice in the
processed list, and one run issues two Fetcher calls for it. -/
theorem sources_overlay_duplicate_not_deduplicated :
    combinedSources false cfgC = .ok ["github.com/acme/tools", "github.com/acme/tools"]
    ∧ (Execute envC rmOk optsC cfgC).2.count (Eff.fetch "github.com/acme/tools" "") = 2 :=
  ⟨rfl, by decide⟩

/-- C5 amended. The source list `Execute` processes is the plain
concatenation of the flat sources and the overlay sources, in order and
without deduplication, whenever the trust loops pass. -/
theorem combined_sources_concatenation (allow : Bool) (cfg : ExtendedConfig)
    (l : List String) (h : combinedSources allow cfg = .ok l) :
    l = cfg.sources ++ cfg.overlays.map (fun o => o.source) := by
  unfold combinedSources at h
  cases hck : checkSourcesTrust allow cfg.sources with
  | error e => rw [hck] at h; exact absurd h (by simp)
  | ok u =>
    cases u
    rw [hck] at h
    cases hco : collectOverlaySources allow cfg.overlays with
    | error e => rw [hco] at h; exact absurd h (by simp)
    | ok os =>
      rw [hco] at h
      simp at h
      rw [h.symm, collectOverlaySources_ok_map allow cfg.overlays os hco]

/-- Witness for the amended C5 at the duplicate configuration. -/
theorem combined_sources_concatenation_witness :
    (["github.com/acme/tools", "github.com/acme/tools"] : List String) =
      cfgC.sources ++ cfgC.overlays.map (fun o => o.source) :=
  combined_sources_concatenation false cfgC
    ["github.com/acme/tools", "github.com/acme/tools"] rfl

/-- C6 counterexample. An absent file is reported by `CheckDrift` as an
issue of kind `drift` with details `file missing`, not as an issue of kind
`missing` as the claim states. -/
theorem missing_file_reported_as_drift_kind :
    CheckDrift (fun c => "sha256:" ++ c) (fun _ => ReadRes.notExist) [("a.md", "sha256:h")] =
      .ok [⟨"drift", "a.md", "file missing", true⟩]
    ∧ ("drift" : String) ≠ "missing" :=
  ⟨rfl, by decide⟩

theorem CheckDrift_ok_of_no_ioErr (hashC : String → String) (fs : String → ReadRes) :
    ∀ (files : List (String × String)),
      (∀ pe ∈ files, ∀ m, fs pe.1 ≠ ReadRes.ioErr m) →
      CheckDrift hashC fs files = .ok (files.filterMap (driftIssueFor hashC fs)) := by
  intro files
  induction files with
  | nil => intro h; rfl
  | cons pe rest ih =>
    intro h
    obtain ⟨path, expected⟩ := pe
    have htail := ih (fun q hq m => h q (List.mem_cons_of_mem _ hq) m)
    unfold CheckDrift
    cases hfs : fs path with
    | notExist =>
      rw [htail]
      simp [List.filterMap_cons, driftIssueFor, hfs]
    | ioErr m => exact absurd hfs (h (path, expected) (List.mem_cons_self _ _) m)
    | found c =>
      dsimp only
      by_cases hne : hashC c ≠ expected
      · rw [if_pos hne, htail]
        simp [List.filterMap_cons, driftIssueFor, hfs, hne]
      · rw [if_neg hne, htail]
        simp at hne
        simp [List.filterMap_cons, driftIssueFor, hfs, hne]

/-- C6 amended. On a filesystem without read errors, the drift scan
returns exactly one issue per entry whose file is absent — kind `drift`,
details `file missing` — or whose recomputed hash differs — kind `drift`
with the mismatch details — and no issue for matching entries; every
reported issue has kind `drift` and is critical. -/
theorem CheckDrift_reports (hashC : String → String) (fs : String → ReadRes)
    (files : List (String × String))
    (h : ∀ pe ∈ files, ∀ m, fs pe.1 ≠ ReadRes.ioErr m) :
    CheckDrift hashC fs files = .ok (files.filterMap (driftIssueFor hashC fs))
    ∧ ∀ i ∈ files.filterMap (driftIssueFor hashC fs),
        i.kind = "drift" ∧ i.isCritical = true := by
  refine ⟨CheckDrift_ok_of_no_ioErr hashC fs files h, ?_⟩
  intro i hi
  rcases List.mem_filterMap.mp hi with ⟨pe, _, heq⟩
  unfold driftIssueFor at heq
  cases hfs : fs pe.1 with
  | notExist =>
    rw [hfs] at heq
    simp at heq
    rw [heq.symm]
    exact ⟨rfl, rfl⟩
  | ioErr m =>
    rw [hfs] at heq
    exact absurd heq (by simp)
  | found c =>
    rw [hfs] at heq
    dsimp only at heq
    by_cases hne : hashC c ≠ pe.2
    · rw [if_pos hne] at heq
      simp at heq
      rw [heq.symm]
      exact ⟨rfl, rfl⟩
    · rw [if_neg hne] at heq
      exact absurd heq (by simp)

/-- Witness for the amended C6: a one-entry map whose file is absent
produces exactly the critical drift issue with details `file missing`. -/
theorem CheckDrift_reports_witness :
    (CheckDrift (fun c => "sha256:" ++ c) (fun _ => ReadRes.notExist) [("a.md", "sha256:h")] =
      .ok ([("a.md", "sha256:h")].filterMap
        (driftIssueFor (fun c => "sha256:" ++ c) (fun _ => ReadRes.notExist)))
    ∧ ∀ i ∈ ([("a.md", "sha256:h")].filterMap
        (driftIssueFor (fun c => "sha256:" ++ c) (fun _ => ReadRes.notExist))),
        i.kind = "drift" ∧ i.isCritical = true) :=
  CheckDrift_reports (fun c => "sha256:" ++ c) (fun _ => ReadRes.notExist)
    [("a.md", "sha256:h")] (fun _ _ _ hcon => ReadRes.noConfusion hcon)

/-- C7 counterexample. The installer Claude adapter leaves spaces and
underscores in the basename and adds no prefix when none is configured: a
source named `MyCompany` with no explicit prefix yields
`.claude/commands/my file_name.md`, not the claimed
`.claude/commands/my-company-my-file-name.md`. -/
theorem claude_output_path_counterexample :
    claudeGetOutputPath "prompts/my file_name.md" ⟨true, ""⟩ =
      ".claude/commands/my file_name.md"
    ∧ claudeGetOutputPath "prompts/my file_name.md" ⟨true, ""⟩ ≠
      ".claude/commands/my-company-my-file-name.md" :=
  ⟨rfl, by decide⟩

/-- C7 amended. The installer Claude adapter returns
`.claude/commands/<prefix>-<basename>` with the basename unmodified when a
prefix is configured and `.claude/commands/<basename>` otherwise; the
space/underscore-to-hyphen replacement and the kebab-cased source-name
default prefix exist only in the legacy `GenerateFileName` and
`ResolvePrefix` helpers, which the install workflow does not call. -/
theorem claude_output_path_amended (file : String) (cfg : AdapterConfig)
    (h : cfg.pfx ≠ "") :
    claudeGetOutputPath file cfg = ".claude/commands/" ++ (cfg.pfx ++ "-" ++ goBase file)
    ∧ claudeGetOutputPath "prompts/note one_two.md" ⟨true, ""⟩ =
        ".claude/commands/note one_two.md"
    ∧ GenerateFileName "my-company" "prompts/my file_name.md" = "my-company-my-file-name.md"
    ∧ ToKebabCase "MyCompany" = "my-company"
    ∧ ResolvePrefix "" "" "MyCompany" = "my-company" := by
  refine ⟨?_, by decide, by decide, by decide, by decide⟩
  unfold claudeGetOutputPath goJoin
  dsimp only
  rw [if_pos h]
  have h1 : (".claude/commands" : String) ++ "/" = ".claude/commands/" := rfl
  rw [h1]

/-- Witness for the amended C7 with the explicit prefix `mc`. -/
theorem claude_output_path_amended_witness :
    (claudeGetOutputPath "prompts/a b_c.md" ⟨true, "mc"⟩ =
      ".claude/commands/" ++ ("mc" ++ "-" ++ goBase "prompts/a b_c.md")
    ∧ claudeGetOutputPath "prompts/note one_two.md" ⟨true, ""⟩ =
        ".claude/commands/note one_two.md"
    ∧ GenerateFileName "my-company" "prompts/my file_name.md" = "my-company-my-file-name.md"
    ∧ ToKebabCase "MyCompany" = "my-company"
    ∧ ResolvePrefix "" "" "MyCompany" = "my-company") :=
  claude_output_path_amended "prompts/a b_c.md" ⟨true, "mc"⟩ (by decide)

/-- C8. A source is pinned exactly when it carries a `#ref` whose ref is
none of main, master, develop, dev; `update` with no arguments keeps
exactly the unpinned sources, so every pinned source is skipped; and
naming a pinned source without `--force` fails with the pinned-source
error. -/
theorem update_skips_and_rejects_pinned (src arg s : String) (cfgSources : List String)
    (hfind : cfgSources.find? (fun x => matchesSourceURL x arg) = some s)
    (hpin : isPinnedSource s = true) :
    (isPinnedSource src = true ↔
      2 ≤ (goSplit src '#').length ∧
        ((goSplit src '#').getD 1 "") ∉ (["main", "master", "develop", "dev"] : List String))
    ∧ determineSourcesToUpdate cfgSources [] false =
        .ok (cfgSources.filter (fun x => !(isPinnedSource x)))
    ∧ (∀ x ∈ (determineSourcesToUpdate cfgSources [] false).toOption.getD [],
        isPinnedSource x = false)
    ∧ determineSourcesToUpdate cfgSources [arg] false =
        .error ("source '" ++ s ++ "' is pinned to a specific version. Use --force to update") := by
  refine ⟨?_, ?_, ?_, ?_⟩
  · unfold isPinnedSource
    by_cases hlen : (goSplit src '#').length < 2
    · rw [if_pos hlen]
      simp
      intro hc
      omega
    · rw [if_neg hlen]
      dsimp only
      have hlen2 : 2 ≤ (goSplit src '#').length := Nat.le_of_not_lt hlen
      simp [hlen2]
  · simp [determineSourcesToUpdate, Bool.false_or]
  · intro x hx
    simp [determineSourcesToUpdate, Bool.false_or, Except.toOption] at hx
    exact hx.2
  · simp [determineSourcesToUpdate, updateTargets, hfind, hpin]

/-- Witness for C8 at a concrete Promptsfile: `github.com/a#v1.0.0` is
pinned, the no-argument update keeps only `github.com/b#main`, and naming
the pinned source fails. -/
theorem update_skips_and_rejects_pinned_witness :
    ((isPinnedSource "github.com/x#v2" = true ↔
      2 ≤ (goSplit "github.com/x#v2" '#').length ∧
        ((goSplit "github.com/x#v2" '#').getD 1 "") ∉
          (["main", "master", "develop", "dev"] : List String))
    ∧ determineSourcesToUpdate cfgSourcesW [] false =
        .ok (cfgSourcesW.filter (fun x => !(isPinnedSource x)))
    ∧ (∀ x ∈ (determineSourcesToUpdate cfgSourcesW [] false).toOption.getD [],
        isPinnedSource x = false)
    ∧ determineSourcesToUpdate cfgSourcesW ["github.com/a"] false =
        .error ("source '" ++ "github.com/a#v1.0.0" ++
          "' is pinned to a specific version. Use --force to update")) :=
  update_skips_and_rejects_pinned "github.com/x#v2" "github.com/a" "github.com/a#v1.0.0"
    cfgSourcesW (by decide) (by decide)

/-- C9. The loaded configuration enables the cursor adapter whenever the
parsed Promptsfile enables no adapter, and consequently every loaded
configuration has at least one adapter enabled. -/
theorem loader_enables_cursor_by_default (cfg : ExtendedConfig) :
    ((cfg.adapters.cursor.enabled = false ∧ cfg.adapters.claude.enabled = false) →
      (applyAdapterDefaults cfg).adapters.cursor.enabled = true)
    ∧ ((applyAdapterDefaults cfg).adapters.cursor.enabled = true ∨
        (applyAdapterDefaults cfg).adapters.claude.enabled = true) := by
  unfold applyAdapterDefaults
  cases hcu : cfg.adapters.cursor.enabled with
  | true => simp [hcu]
  | false =>
    cases hcl : cfg.adapters.claude.enabled with
    | true => simp [hcu, hcl]
    | false => simp [hcu, hcl]

/-- Witness for C9 at a configuration enabling no adapter. -/
theorem loader_enables_cursor_by_default_witness :
    (((cfgBadNoAdapters.adapters.cursor.enabled = false ∧
        cfgBadNoAdapters.adapters.claude.enabled = false) →
      (applyAdapterDefaults cfgBadNoAdapters).adapters.cursor.enabled = true)
    ∧ ((applyAdapterDefaults cfgBadNoAdapters).adapters.cursor.enabled = true ∨
        (applyAdapterDefaults cfgBadNoAdapters).adapters.claude.enabled = true)) :=
  loader_enables_cursor_by_default cfgBadNoAdapters

end PromptSync
